import Mathlib

/-
Verification development for the napi-rs module registration runtime
(`crates/napi/src/bindgen_runtime/module_register.rs`).

The registries, the installer entry point `napi_register_module_v1`, and the
lookup functions (`get_js_function`, `get_c_callback`, `get_class_constructor`)
are shallowly embedded here.  Host (N-API) objects are modelled by a small heap
of property lists; namespace/export names are modelled as character lists (the
registered Rust `&'static str` values, which carry a trailing NUL byte), and a
C-string read by the host is the prefix of such a list before its first NUL.
Hash-map iteration order, which Rust leaves unspecified, is modelled by
explicit order parameters constrained to be permutations of the key sets.
-/

namespace NapiRegister

/-- The NUL character that terminates registered names. -/
def nulc : Char := Char.ofNat 0

/-- A registered name: the raw bytes of the Rust string, including the
trailing NUL that the runtime expects. -/
abbrev NName := List Char

/-- What the host reads from `CStr::from_bytes_with_nul_unchecked(s).as_ptr()`:
the characters strictly before the first NUL. -/
def cstr (s : NName) : NName := s.takeWhile (fun c => c ≠ nulc)

/-- A napi value, as far as this module can observe it. -/
inductive NValue where
  | nullv : NValue
  | undef : NValue
  | obj : Nat → NValue
  | cls : Nat → NValue
  | val : Nat → NValue
deriving DecidableEq, Repr

/-- The property list of one host object; `napi_set_named_property`
overwrites an existing key. -/
abbrev PropList := List (NName × NValue)

/-- Overwrite-or-append a named property. -/
def setProp : PropList → NName → NValue → PropList
  | [], k, v => [(k, v)]
  | (k0, v0) :: rest, k, v =>
    if k0 = k then (k, v) :: rest else (k0, v0) :: setProp rest k v

/-- Read a named property. -/
def getProp : PropList → NName → Option NValue
  | [], _ => none
  | (k0, v0) :: rest, k => if k0 = k then some v0 else getProp rest k

/-- First-match association lookup. -/
def assocFind {α β : Type} [DecidableEq α] : List (α × β) → α → Option β
  | [], _ => none
  | (a, b) :: rest, k => if a = k then some b else assocFind rest k

/-- Hash-map style "update the entry for `k` if present (using `f` on its
value), otherwise insert `f d`" on an association list. -/
def assocUpdate {α β : Type} [DecidableEq α] :
    List (α × β) → α → β → (β → β) → List (α × β)
  | [], k, d, f => [(k, f d)]
  | (a, b) :: rest, k, d, f =>
    if a = k then (k, f b) :: rest else (a, b) :: assocUpdate rest k d f

/-- Host object heap: allocated objects with their property lists, plus the
next fresh object id.  Object `0` is the `exports` object the host passes in. -/
structure Heap where
  objs : List (Nat × PropList)
  next : Nat
deriving DecidableEq, Repr

def hget : List (Nat × PropList) → Nat → Option PropList
  | [], _ => none
  | (j, o) :: rest, i => if j = i then some o else hget rest i

def hset : List (Nat × PropList) → Nat → PropList → List (Nat × PropList)
  | [], _, _ => []
  | (j, o0) :: rest, i, o =>
    if j = i then (i, o) :: rest else (j, o0) :: hset rest i o

def Heap.get (h : Heap) (i : Nat) : Option PropList := hget h.objs i

def Heap.setObj (h : Heap) (i : Nat) (o : PropList) : Heap :=
  ⟨hset h.objs i o, h.next⟩

/-- `napi_create_object`: allocate a fresh empty object. -/
def Heap.alloc (h : Heap) : Nat × Heap :=
  (h.next, ⟨h.objs ++ [(h.next, [])], h.next + 1⟩)

/-- Well-formedness of the heap: allocated ids are below `next` and unique,
and the exports object exists. -/
def Heap.WF (h : Heap) : Prop :=
  (∀ i ∈ h.objs.map (fun p => p.1), i < h.next) ∧
  (h.objs.map (fun p => p.1)).Nodup ∧
  (h.get 0).isSome = true

/-- napi status codes surfaced as errors by the embedded host calls. -/
def errInvalidRef : Nat := 1
def errObjectExpected : Nat := 2
def errNullCb : Nat := 3

/-- `napi_set_named_property(env, target, k, v)`. -/
def hostSetNamed (h : Heap) (target : NValue) (k : NName) (v : NValue) :
    Except Nat Heap :=
  match target with
  | .obj i =>
    match h.get i with
    | some o => .ok (h.setObj i (setProp o k v))
    | none => .error errInvalidRef
  | _ => .error errObjectExpected

/-- `napi_get_named_property(env, target, k)`; a missing property reads as
`undefined`. -/
def hostGetNamed (h : Heap) (target : NValue) (k : NName) : Except Nat NValue :=
  match target with
  | .obj i =>
    match h.get i with
    | some o => .ok ((getProp o k).getD .undef)
    | none => .error errInvalidRef
  | _ => .error errObjectExpected

/-- An export registration record, as pushed by `register_module_export`:
`(js_mod, (name, callback))` with the callback identified by a `Nat`. -/
abbrev Rec := Option NName × NName × Nat

abbrev Item := NName × Nat

/-- `register_module_export`: append to `MODULE_REGISTER_CALLBACK`. -/
def register_module_export (st : List Rec) (js_mod : Option NName)
    (name : NName) (cb : Nat) : List Rec :=
  st ++ [(js_mod, name, cb)]

/-- The registry produced by a sequence of `register_module_export` calls. -/
def registerAll (calls : List Rec) : List Rec :=
  calls.foldl (fun s c => register_module_export s c.1 c.2.1 c.2.2) []

/-- `register_js_function`: `FN_REGISTER_MAP.insert(cb, (c_fn, name))`.
The value of `c_fn` has Rust type `Option<fn>` (`sys::napi_callback`). -/
abbrev FnMap := List (Nat × (Option Nat × NName))

def register_js_function (m : FnMap) (name : NName) (cb : Nat)
    (c_fn : Option Nat) : FnMap :=
  assocUpdate m cb (none, []) (fun _ => (c_fn, name))

/-- One class property descriptor; `method` is the underlying
`napi_property_descriptor.method` field, of Rust type `Option<fn>`. -/
structure Property where
  is_ctor : Bool
  method : Option Nat
deriving DecidableEq, Repr

/-- `MODULE_CLASS_PROPERTIES`: rust_name -> js_mod -> (js_name, props). -/
abbrev ClassRegistry := List (String × List (Option NName × (NName × List Property)))

/-- `register_class(rust_name, js_mod, js_name, props)`:
`entry(rust_name).or_default()`, `entry(js_mod).or_default()`, then
`val.0 = js_name; val.1.extend(props)`. -/
def register_class (reg : ClassRegistry) (rust_name : String)
    (js_mod : Option NName) (js_name : NName) (props : List Property) :
    ClassRegistry :=
  assocUpdate reg rust_name [] (fun inner =>
    assocUpdate inner js_mod ([], []) (fun v => (js_name, v.2 ++ props)))

/-- One class drain item: `(rust_name, js_mod, js_name, props)`. -/
abbrev ClassEntry := String × Option NName × NName × List Property

/-- All entries of the class registry, as the nested drain loops visit them. -/
def flattenClasses (reg : ClassRegistry) : List ClassEntry :=
  (reg.map (fun p => p.2.map (fun q => (p.1, q.1, q.2.1, q.2.2)))).flatten

/-- The observable actions of the installer, in execution order. -/
inductive MEvent where
  | createNs : NName → MEvent
  | attach : Option NName → NName → MEvent
  | attachClass : Option NName → NName → MEvent
  | storeSlot : List (NName × Nat) → MEvent
  | storeRegistered : MEvent
deriving DecidableEq, Repr

/-- The state threaded through one `napi_register_module_v1` run. -/
structure InstallState where
  heap : Heap
  exportsObjects : List NName
  table : List (NName × Nat)
  refNext : Nat
  thrown : List Nat
  events : List MEvent
  panicked : Bool
deriving DecidableEq, Repr

/-- The `if exports_js_mod.is_null() { exports } else { exports_js_mod }`
selection (the exports object has id 0). -/
def exportedObject (target : NValue) : NValue :=
  match target with
  | .nullv => .obj 0
  | v => v

/-- Namespace resolution shared by the export and class drains
(module_register.rs lines 316-351 and 382-411): consult the local
`exports_objects` set; fetch from exports if present, otherwise create a fresh
object, attach it to exports, and record the namespace in the set. -/
def resolveNsTarget (st : InstallState) (jsMod : Option NName) :
    NValue × InstallState :=
  match jsMod with
  | none => (NValue.nullv, st)
  | some m =>
    if m ∈ st.exportsObjects then
      match hostGetNamed st.heap (NValue.obj 0) (cstr m) with
      | .ok v => (v, st)
      | .error e => (NValue.nullv, { st with thrown := st.thrown ++ [e] })
    else
      let a := st.heap.alloc
      let st1 := { st with
                   heap := a.2,
                   events := st.events ++ [MEvent.createNs m] }
      let st2 :=
        match hostSetNamed st1.heap (NValue.obj 0) (cstr m) (NValue.obj a.1) with
        | .ok h2 => { st1 with heap := h2 }
        | .error e => { st1 with thrown := st1.thrown ++ [e] }
      (NValue.obj a.1, { st2 with exportsObjects := st2.exportsObjects ++ [m] })

/-- One export item (lines 352-370): run the factory, attach the produced
value; on factory or attach failure, throw that single error into the env. -/
def processExportItem (factories : Nat → Except Nat NValue)
    (jsMod : Option NName) (target : NValue) (st : InstallState)
    (item : Item) : InstallState :=
  match factories item.2 with
  | .error e => { st with thrown := st.thrown ++ [e] }
  | .ok v =>
    match hostSetNamed st.heap (exportedObject target) (cstr item.1) v with
    | .ok h =>
      { st with
        heap := h,
        events := st.events ++ [MEvent.attach jsMod (cstr item.1)] }
    | .error e => { st with thrown := st.thrown ++ [e] }

/-- Process one namespace group of the export drain. -/
def processGroup (factories : Nat → Except Nat NValue) (st : InstallState)
    (k : Option NName) (items : List Item) : InstallState :=
  let r := resolveNsTarget st k
  items.foldl (processExportItem factories k r.1) r.2

/-- The grouping fold of lines 300-313: fold the registration list into a map
from `js_mod` to the items registered under it, in registration order. -/
def groupRecords (records : List Rec) :
    List (Option NName × List Item) :=
  records.foldl
    (fun acc r => assocUpdate acc r.1 [] (fun items => items ++ [r.2])) []

def lookupGroup (g : List (Option NName × List Item)) (k : Option NName) :
    List Item :=
  (assocFind g k).getD []

def groupKeys (records : List Rec) : List (Option NName) :=
  (groupRecords records).map (fun p => p.1)

/-- The export drain (lines 300-372). `keyOrder` is the iteration order of the
grouping hash map, unspecified by Rust; validity constrains it to enumerate
exactly the group keys. -/
def exportPhase (records : List Rec) (keyOrder : List (Option NName))
    (factories : Nat → Except Nat NValue) (st : InstallState) : InstallState :=
  keyOrder.foldl
    (fun s k => processGroup factories s k (lookupGroup (groupRecords records) k))
    st

/-- One class drain step (lines 378-459): resolve the namespace, partition the
properties, take the constructor (`ctor.get(0).map(|c| ...method.unwrap())`
panics if the constructor property has no method), define the class, create a
reference to it, record it in `registered_classes` keyed by the raw `js_name`,
and attach the class under its name. -/
def processClassEntry (st : InstallState) (e : ClassEntry) : InstallState :=
  if st.panicked then st
  else
    match e with
    | (_, jm, jsn, props) =>
      let r := resolveNsTarget st jm
      let target := r.1
      let st1 := r.2
      let parts := props.partition (fun p => p.is_ctor)
      match parts.1.head?.map Property.method with
      | some none => { st1 with panicked := true }
      | _ =>
        let cid := st1.heap.next
        let st2 := { st1 with heap := ⟨st1.heap.objs, st1.heap.next + 1⟩ }
        let st3 := { st2 with
                     refNext := st2.refNext + 1,
                     table := assocUpdate st2.table jsn 0 (fun _ => st2.refNext) }
        match hostSetNamed st3.heap (exportedObject target) (cstr jsn)
            (NValue.cls cid) with
        | .ok h2 =>
          { st3 with
            heap := h2,
            events := st3.events ++ [MEvent.attachClass jm (cstr jsn)] }
        | .error e2 => { st3 with thrown := st3.thrown ++ [e2] }

/-- The class drain (lines 377-460). `centries` is the order in which the
nested hash-map loops visit the class registry. -/
def classPhase (centries : List ClassEntry) (st : InstallState) : InstallState :=
  centries.foldl processClassEntry st

/-- Lines 461-477: store the completed constructor table into the thread-local
slot, then set `REGISTERED`.  (Skipped if a panic unwound the drain.) -/
def publishAndFlag (st : InstallState) : InstallState :=
  if st.panicked then st
  else { st with
         events := st.events ++ [MEvent.storeSlot st.table, MEvent.storeRegistered] }

def initState (h0 : Heap) : InstallState :=
  { heap := h0, exportsObjects := [], table := [], refNext := 0,
    thrown := [], events := [], panicked := false }

/-- The host exports object before the entry point runs, with no pre-existing
properties. -/
def initHeap : Heap := ⟨[(0, [])], 1⟩

/-- `napi_register_module_v1`: export drain, class drain, publish the
constructor table, set the flag. -/
def napi_register_module_v1 (records : List Rec)
    (factories : Nat → Except Nat NValue) (keyOrder : List (Option NName))
    (centries : List ClassEntry) (h0 : Heap) : InstallState :=
  publishAndFlag (classPhase centries (exportPhase records keyOrder factories (initState h0)))

/-- Read a property of the exports object in a final state. -/
def expProp (st : InstallState) (key : NName) : Option NValue :=
  (st.heap.get 0).bind (fun o => getProp o key)

/-- A hash-map iteration order is some permutation of the key set. -/
def ValidKeyOrder (records : List Rec) (ko : List (Option NName)) : Prop :=
  ko.Perm (groupKeys records)

def ValidClassIter (reg : ClassRegistry) (ce : List ClassEntry) : Prop :=
  ce.Perm (flattenClasses reg)

/-- The cross-thread-visible module state: the installing thread's
thread-local constructor-table pointer, and the global `REGISTERED` flag. -/
structure MState where
  slot : Option (List (NName × Nat))
  registered : Bool
deriving DecidableEq, Repr

def applyEvent (s : MState) (e : MEvent) : MState :=
  match e with
  | .storeSlot t => { s with slot := some t }
  | .storeRegistered => { s with registered := true }
  | _ => s

/-- All module states observable at the step boundaries of an event trace. -/
def mstates (evs : List MEvent) : List MState :=
  List.scanl applyEvent ⟨none, false⟩ evs

/-- Outcome of a lookup-facade call: spins forever (flag never set), panics,
or returns. -/
inductive LookupOutcome (α : Type) where
  | spins : LookupOutcome α
  | panics : LookupOutcome α
  | ok : α → LookupOutcome α
deriving DecidableEq, Repr

/-- `get_class_constructor` (lines 147-153): spin on `REGISTERED`, then
`REGISTERED_CLASSES.get().unwrap()` — a panic if this thread never ran the
entry point — then read the table.  `slot = some none` is an initialized
thread-local whose pointer was never stored (it is still null). -/
def get_class_constructor (registered : Bool)
    (slot : Option (Option (List (NName × Nat)))) (js_name : NName) :
    LookupOutcome (Option Nat) :=
  if registered then
    match slot with
    | none => .panics
    | some none => .panics
    | some (some tbl) => .ok (assocFind tbl js_name)
  else .spins

inductive NStatus where
  | invalidArg
deriving DecidableEq, Repr

structure NError where
  status : NStatus
  reason : String
deriving DecidableEq, Repr

def fnNotExist : NError := ⟨.invalidArg, "JavaScript function does not exist"⟩

/-- A host function value: the host copies `nameLen` bytes of the name and
keeps the native callback that backs the function. -/
structure JsFunction where
  name : NName
  nameLen : Nat
  cb : Nat
deriving DecidableEq, Repr

/-- `napi_create_function`: fails on a null callback. -/
def napi_create_function (name : NName) (len : Nat) (cb : Option Nat) :
    Except Nat JsFunction :=
  match cb with
  | none => .error errNullCb
  | some c => .ok ⟨cstr name, len, c⟩

/-- `get_js_function` (lines 215-248): spin, look up the factory, create a
function named `name` with length `name.len() - 1`; any failure (missing
factory or failed creation) collapses to the InvalidArg error. -/
def get_js_function (registered : Bool) (m : FnMap) (raw_fn : Nat) :
    LookupOutcome (Except NError JsFunction) :=
  if registered then
    .ok (match assocFind m raw_fn with
      | none => .error fnNotExist
      | some pr =>
        match napi_create_function pr.2 (pr.2.length - 1) pr.1 with
        | .ok f => .ok f
        | .error _ => .error fnNotExist)
  else .spins

/-- `get_c_callback` (lines 269-282): spin, look up the factory, and return
the stored `Option<fn>` callback, flattening `None` into the same InvalidArg
error. -/
def get_c_callback (registered : Bool) (m : FnMap) (raw_fn : Nat) :
    LookupOutcome (Except NError Nat) :=
  if registered then
    .ok (match assocFind m raw_fn with
      | none => .error fnNotExist
      | some pr =>
        match pr.1 with
        | none => .error fnNotExist
        | some c => .ok c)
  else .spins

/- Derived notions used to state the claims. -/

def isOkB {ε α : Type} : Except ε α → Bool
  | .ok _ => true
  | .error _ => false

/-- The registration-order list of items of namespace `k`. -/
def groupSpec (records : List Rec) (k : Option NName) : List Item :=
  match records with
  | [] => []
  | r :: rest => if r.1 = k then r.2 :: groupSpec rest k else groupSpec rest k

/-- The effect of one export item on its target object's property list. -/
def applyItem (factories : Nat → Except Nat NValue) (o : PropList)
    (it : Item) : PropList :=
  match factories it.2 with
  | .ok v => setProp o (cstr it.1) v
  | .error _ => o

/-- The attach events one group's item loop emits. -/
def itemEvents (factories : Nat → Except Nat NValue) (jm : Option NName)
    (items : List Item) : List MEvent :=
  items.filterMap (fun it =>
    match factories it.2 with
    | .ok _ => some (MEvent.attach jm (cstr it.1))
    | .error _ => none)

/-- The errors one group's item loop throws. -/
def itemErrors (factories : Nat → Except Nat NValue) (items : List Item) :
    List Nat :=
  items.filterMap (fun it =>
    match factories it.2 with
    | .ok _ => none
    | .error e => some e)

/-- The exports-object keys written while processing group `k`. -/
def groupKeysWritten (records : List Rec) (k : Option NName) : List NName :=
  match k with
  | none => (lookupGroup (groupRecords records) none).map (fun it => cstr it.1)
  | some m => [cstr m]

def writtenKeys (records : List Rec) (ko : List (Option NName)) : List NName :=
  (ko.map (groupKeysWritten records)).flatten

/-- The event trace one group contributes. -/
def groupTrace (records : List Rec) (factories : Nat → Except Nat NValue)
    (k : Option NName) : List MEvent :=
  (match k with | none => [] | some m => [MEvent.createNs m]) ++
  itemEvents factories k (lookupGroup (groupRecords records) k)

/-- The names attached (in order) with group label `k` in an event trace. -/
def attachTrace (k : Option NName) (evs : List MEvent) : List NName :=
  evs.filterMap (fun e =>
    match e with
    | .attach jm n => if jm = k then some n else none
    | _ => none)

/-- Claim C1's per-record postcondition: the registered pair is an attached
property of the exports object (or of its namespace sub-object) holding the
factory's value. -/
def Attached (factories : Nat → Except Nat NValue) (st : InstallState)
    (r : Rec) : Prop :=
  match r.1 with
  | none => ∃ v, factories r.2.2 = Except.ok v ∧ expProp st (cstr r.2.1) = some v
  | some m => ∃ i oi v, expProp st (cstr m) = some (NValue.obj i) ∧
      st.heap.get i = some oi ∧ factories r.2.2 = Except.ok v ∧
      getProp oi (cstr r.2.1) = some v

/-- Validity of a registered name (claim C10): non-empty, NUL-terminated,
no interior NUL. -/
def ValidName (s : NName) : Prop :=
  s ≠ [] ∧ s.getLast? = some nulc ∧ ∀ c ∈ s.dropLast, c ≠ nulc

end NapiRegister

namespace NapiRegister

/- ### Basic lemmas on property lists and association lists -/

theorem getProp_setProp_same (o : PropList) (k : NName) (v : NValue) :
    getProp (setProp o k v) k = some v := by
  induction o with
  | nil => simp [setProp, getProp]
  | cons p rest ih =>
    obtain ⟨k0, v0⟩ := p
    by_cases h : k0 = k
    · simp [setProp, getProp, h]
    · simp [setProp, getProp, h, ih]

theorem getProp_setProp_ne (o : PropList) (k k2 : NName) (v : NValue)
    (h : k2 ≠ k) : getProp (setProp o k v) k2 = getProp o k2 := by
  induction o with
  | nil => simp [setProp, getProp, h, Ne.symm h]
  | cons p rest ih =>
    obtain ⟨k0, v0⟩ := p
    by_cases hk : k0 = k
    · subst hk
      simp [setProp, getProp, h, Ne.symm h]
    · simp only [setProp, if_neg hk, getProp]
      by_cases hk2 : k0 = k2
      · simp [hk2]
      · simp [hk2, ih]

theorem assocFind_assocUpdate_same {α β : Type} [DecidableEq α]
    (l : List (α × β)) (k : α) (d : β) (f : β → β) :
    assocFind (assocUpdate l k d f) k = some (f ((assocFind l k).getD d)) := by
  induction l with
  | nil => simp [assocFind, assocUpdate]
  | cons p rest ih =>
    obtain ⟨a, b⟩ := p
    by_cases h : a = k
    · simp [assocUpdate, assocFind, h]
    · simp [assocUpdate, assocFind, h, ih]

theorem assocFind_assocUpdate_ne {α β : Type} [DecidableEq α]
    (l : List (α × β)) (k k2 : α) (d : β) (f : β → β) (h : k2 ≠ k) :
    assocFind (assocUpdate l k d f) k2 = assocFind l k2 := by
  induction l with
  | nil => simp [assocFind, assocUpdate, h, Ne.symm h]
  | cons p rest ih =>
    obtain ⟨a, b⟩ := p
    by_cases hk : a = k
    · subst hk
      simp [assocUpdate, assocFind, h, Ne.symm h]
    · simp only [assocUpdate, if_neg hk, assocFind]
      by_cases hk2 : a = k2
      · simp [hk2]
      · simp [hk2, ih]

theorem assocUpdate_keys {α β : Type} [DecidableEq α]
    (l : List (α × β)) (k : α) (d : β) (f : β → β) :
    (assocUpdate l k d f).map (fun p => p.1) =
      if k ∈ l.map (fun p => p.1) then l.map (fun p => p.1)
      else l.map (fun p => p.1) ++ [k] := by
  induction l with
  | nil => simp [assocUpdate]
  | cons p rest ih =>
    obtain ⟨a, b⟩ := p
    by_cases h : a = k
    · simp [assocUpdate, h]
    · simp only [assocUpdate, if_neg h, List.map_cons]
      rw [ih]
      by_cases hm : k ∈ rest.map (fun p => p.1)
      · simp [hm, Ne.symm h]
      · simp [hm, Ne.symm h]

/- ### Heap lemmas -/

theorem hget_hset_of_isSome (l : List (Nat × PropList)) (i : Nat) (o : PropList)
    (h : (hget l i).isSome = true) : hget (hset l i o) i = some o := by
  induction l with
  | nil => simp [hget] at h
  | cons p rest ih =>
    obtain ⟨j, o0⟩ := p
    by_cases hj : j = i
    · simp [hset, hget, hj]
    · simp only [hget, if_neg hj] at h
      simp [hset, hget, hj, ih h]

theorem hget_hset_ne (l : List (Nat × PropList)) (i j : Nat) (o : PropList)
    (h : j ≠ i) : hget (hset l i o) j = hget l j := by
  induction l with
  | nil => simp [hset]
  | cons p rest ih =>
    obtain ⟨j0, o0⟩ := p
    by_cases hj : j0 = i
    · subst hj
      simp [hset, hget, h, Ne.symm h]
    · simp only [hset, if_neg hj, hget]
      by_cases hj2 : j0 = j
      · simp [hj2]
      · simp [hj2, ih]

theorem hset_keys (l : List (Nat × PropList)) (i : Nat) (o : PropList) :
    (hset l i o).map (fun p => p.1) = l.map (fun p => p.1) := by
  induction l with
  | nil => simp [hset]
  | cons p rest ih =>
    obtain ⟨j, o0⟩ := p
    by_cases hj : j = i
    · simp [hset, hj]
    · simp [hset, hj, ih]

theorem hget_append (l1 l2 : List (Nat × PropList)) (i : Nat) :
    hget (l1 ++ l2) i = ((hget l1 i).orElse (fun _ => hget l2 i)) := by
  induction l1 with
  | nil => simp [hget]
  | cons p rest ih =>
    obtain ⟨j, o0⟩ := p
    by_cases hj : j = i
    · simp [hget, hj]
    · simp [hget, hj, ih]

theorem hget_mem (l : List (Nat × PropList)) (i : Nat) (o : PropList)
    (h : hget l i = some o) : (i, o) ∈ l := by
  induction l with
  | nil => simp [hget] at h
  | cons p rest ih =>
    obtain ⟨j, o0⟩ := p
    by_cases hj : j = i
    · subst hj
      have h2 : o0 = o := by simpa [hget] using h
      subst h2
      exact List.mem_cons_self _ _
    · simp only [hget, if_neg hj] at h
      exact List.mem_cons_of_mem _ (ih h)

theorem hget_none_of_ge (h : Heap) (hwf : Heap.WF h) (i : Nat)
    (hi : h.next ≤ i) : h.get i = none := by
  cases hg : h.get i with
  | none => rfl
  | some o =>
    exfalso
    have hmem := hget_mem h.objs i o hg
    have : i ∈ h.objs.map (fun p => p.1) := List.mem_map.mpr ⟨(i, o), hmem, rfl⟩
    have := hwf.1 i this
    omega

theorem next_pos_of_WF (h : Heap) (hwf : Heap.WF h) : 0 < h.next := by
  obtain ⟨o, ho⟩ := Option.isSome_iff_exists.mp hwf.2.2
  have hmem := hget_mem h.objs 0 o ho
  have : (0 : Nat) ∈ h.objs.map (fun p => p.1) := List.mem_map.mpr ⟨(0, o), hmem, rfl⟩
  exact hwf.1 0 this

end NapiRegister

namespace NapiRegister

theorem hset_hset (l : List (Nat × PropList)) (i : Nat) (o o2 : PropList) :
    hset (hset l i o) i o2 = hset l i o2 := by
  induction l with
  | nil => simp [hset]
  | cons p rest ih =>
    obtain ⟨j, o0⟩ := p
    by_cases hj : j = i
    · simp [hset, hj]
    · simp [hset, hj, ih]

theorem hset_self (l : List (Nat × PropList)) (i : Nat) (o : PropList)
    (h : hget l i = some o) : hset l i o = l := by
  induction l with
  | nil => simp [hset]
  | cons p rest ih =>
    obtain ⟨j, o0⟩ := p
    by_cases hj : j = i
    · subst hj
      have h2 : o0 = o := by simpa [hget] using h
      subst h2
      simp [hset]
    · simp only [hget, if_neg hj] at h
      simp [hset, hj, ih h]

theorem WF_setObj (h : Heap) (i : Nat) (o : PropList) (hwf : Heap.WF h) :
    Heap.WF (h.setObj i o) := by
  obtain ⟨h1, h2, h3⟩ := hwf
  refine ⟨?_, ?_, ?_⟩
  · intro j hj
    simp only [Heap.setObj, hset_keys] at hj
    exact h1 j hj
  · simp only [Heap.setObj, hset_keys]
    exact h2
  · by_cases hi : i = 0
    · subst hi
      simp only [Heap.get, Heap.setObj]
      rw [hget_hset_of_isSome _ _ _ h3]
      rfl
    · simp only [Heap.get, Heap.setObj]
      rw [hget_hset_ne _ _ _ _ (Ne.symm hi)]
      exact h3

theorem WF_alloc (h : Heap) (hwf : Heap.WF h) : Heap.WF (h.alloc).2 := by
  obtain ⟨h1, h2, h3⟩ := hwf
  refine ⟨?_, ?_, ?_⟩
  · intro j hj
    simp only [Heap.alloc, List.map_append, List.map_cons, List.map_nil,
      List.mem_append, List.mem_singleton] at hj
    rcases hj with hj | hj
    · exact Nat.lt_succ_of_lt (h1 j hj)
    · subst hj
      exact Nat.lt_succ_self _
  · simp only [Heap.alloc, List.map_append, List.map_cons, List.map_nil]
    rw [List.nodup_append]
    refine ⟨h2, List.nodup_singleton _, ?_⟩
    intro a ha hb
    simp only [List.mem_singleton] at hb
    subst hb
    exact absurd (h1 _ ha) (lt_irrefl _)
  · simp only [Heap.get, Heap.alloc]
    rw [hget_append]
    obtain ⟨o, ho⟩ := Option.isSome_iff_exists.mp h3
    simp only [Heap.get] at ho
    simp [ho]

theorem alloc_get_ne (h : Heap) (j : Nat) (hj : j ≠ h.next) :
    (h.alloc).2.get j = h.get j := by
  simp only [Heap.get, Heap.alloc]
  rw [hget_append]
  cases hg : hget h.objs j with
  | some o => simp
  | none => simp [hget, Ne.symm hj]

theorem alloc_get_new (h : Heap) (hwf : Heap.WF h) :
    (h.alloc).2.get (h.alloc).1 = some [] := by
  simp only [Heap.get, Heap.alloc]
  rw [hget_append]
  have hn : hget h.objs h.next = none := by
    have := hget_none_of_ge h hwf h.next (le_refl _)
    simpa [Heap.get] using this
  simp [hn, hget]

/- ### Grouping lemmas -/

theorem lookupGroup_foldl (l : List Rec)
    (acc : List (Option NName × List Item)) (k : Option NName) :
    lookupGroup
      (l.foldl (fun acc r => assocUpdate acc r.1 [] (fun items => items ++ [r.2])) acc) k
      = lookupGroup acc k ++ groupSpec l k := by
  induction l generalizing acc with
  | nil => simp [groupSpec]
  | cons r rest ih =>
    simp only [List.foldl_cons]
    rw [ih]
    by_cases h : r.1 = k
    · simp only [groupSpec, if_pos h, lookupGroup]
      rw [h, assocFind_assocUpdate_same]
      simp [lookupGroup]
    · simp only [groupSpec, if_neg h, lookupGroup]
      rw [assocFind_assocUpdate_ne _ _ _ _ _ (fun he => h he.symm)]

theorem lookupGroup_groupRecords (records : List Rec) (k : Option NName) :
    lookupGroup (groupRecords records) k = groupSpec records k := by
  have h := lookupGroup_foldl records [] k
  simpa [groupRecords, lookupGroup, assocFind] using h

theorem mem_groupSpec (records : List Rec) (r : Rec) (h : r ∈ records) :
    r.2 ∈ groupSpec records r.1 := by
  induction records with
  | nil => simp at h
  | cons r0 rest ih =>
    rcases List.mem_cons.mp h with h | h
    · subst h
      simp [groupSpec]
    · by_cases hk : r0.1 = r.1
      · simp only [groupSpec, if_pos hk]
        exact List.mem_cons_of_mem _ (ih h)
      · simp only [groupSpec, if_neg hk]
        exact ih h

theorem groupSpec_mem (records : List Rec) (k : Option NName) (it : Item)
    (h : it ∈ groupSpec records k) : (k, it) ∈ records := by
  induction records with
  | nil => simp [groupSpec] at h
  | cons r0 rest ih =>
    obtain ⟨r01, r02⟩ := r0
    by_cases hk : r01 = k
    · subst hk
      simp only [groupSpec, if_pos rfl] at h
      rcases List.mem_cons.mp h with h | h
      · subst h
        exact List.mem_cons_self _ _
      · exact List.mem_cons_of_mem _ (ih h)
    · simp only [groupSpec, hk, if_false] at h
      exact List.mem_cons_of_mem _ (ih h)

theorem assocFind_mem_keys {α β : Type} [DecidableEq α]
    (l : List (α × β)) (k : α) (b : β) (h : assocFind l k = some b) :
    k ∈ l.map (fun p => p.1) := by
  induction l with
  | nil => simp [assocFind] at h
  | cons p rest ih =>
    obtain ⟨a, b0⟩ := p
    by_cases hk : a = k
    · subst hk
      simp
    · simp only [assocFind, if_neg hk] at h
      simp only [List.map_cons, List.mem_cons]
      exact Or.inr (ih h)

theorem mem_groupKeys (records : List Rec) (r : Rec) (h : r ∈ records) :
    r.1 ∈ groupKeys records := by
  have h1 := mem_groupSpec records r h
  rw [← lookupGroup_groupRecords] at h1
  cases hf : assocFind (groupRecords records) r.1 with
  | none =>
    rw [lookupGroup, hf] at h1
    simp at h1
  | some items => exact assocFind_mem_keys _ _ _ hf

theorem groupKeys_nodup_aux (l : List Rec)
    (acc : List (Option NName × List Item))
    (h : (acc.map (fun p => p.1)).Nodup) :
    (((l.foldl (fun acc r => assocUpdate acc r.1 [] (fun items => items ++ [r.2])) acc)).map
      (fun p => p.1)).Nodup := by
  induction l generalizing acc with
  | nil => exact h
  | cons r rest ih =>
    simp only [List.foldl_cons]
    apply ih
    rw [assocUpdate_keys]
    by_cases hm : r.1 ∈ acc.map (fun p => p.1)
    · simp only [if_pos hm]
      exact h
    · simp only [if_neg hm]
      rw [List.nodup_append]
      refine ⟨h, List.nodup_singleton _, ?_⟩
      intro a ha hb
      simp only [List.mem_singleton] at hb
      subst hb
      exact hm ha

theorem groupKeys_nodup (records : List Rec) : (groupKeys records).Nodup := by
  have h := groupKeys_nodup_aux records [] (by simp)
  simpa [groupKeys, groupRecords] using h

/- ### Pure object-fold lemmas -/

theorem getProp_applyFold_notmem (factories : Nat → Except Nat NValue)
    (items : List Item) (o : PropList) (key : NName)
    (h : key ∉ items.map (fun it => cstr it.1)) :
    getProp (items.foldl (applyItem factories) o) key = getProp o key := by
  induction items generalizing o with
  | nil => rfl
  | cons it rest ih =>
    simp only [List.map_cons, List.mem_cons, not_or] at h
    simp only [List.foldl_cons]
    rw [ih _ h.2]
    cases hf : factories it.2 with
    | ok v => simp [applyItem, hf, getProp_setProp_ne _ _ _ _ h.1]
    | error e => simp [applyItem, hf]

theorem getProp_applyFold_mem (factories : Nat → Except Nat NValue)
    (items : List Item) (o : PropList) (n : NName) (c : Nat) (v : NValue)
    (hnd : (items.map (fun it => cstr it.1)).Nodup)
    (hmem : (n, c) ∈ items) (hok : factories c = Except.ok v) :
    getProp (items.foldl (applyItem factories) o) (cstr n) = some v := by
  induction items generalizing o with
  | nil => simp at hmem
  | cons it rest ih =>
    simp only [List.map_cons, List.nodup_cons] at hnd
    rcases List.mem_cons.mp hmem with he | he
    · simp only [List.foldl_cons]
      rw [getProp_applyFold_notmem]
      · rw [← he]
        simp [applyItem, hok, getProp_setProp_same]
      · rw [← he] at hnd
        exact hnd.1
    · simp only [List.foldl_cons]
      exact ih _ hnd.2 he

end NapiRegister

namespace NapiRegister

theorem itemsFold (factories : Nat → Except Nat NValue) (jm : Option NName)
    (t : NValue) (i : Nat) (hT : exportedObject t = NValue.obj i) :
    ∀ (items : List Item) (st : InstallState) (o : PropList),
      st.heap.get i = some o →
      items.foldl (processExportItem factories jm t) st =
        { st with
          heap := ⟨hset st.heap.objs i (items.foldl (applyItem factories) o), st.heap.next⟩,
          events := st.events ++ itemEvents factories jm items,
          thrown := st.thrown ++ itemErrors factories items } := by
  intro items
  induction items with
  | nil =>
    intro st o ho
    have h2 : hset st.heap.objs i o = st.heap.objs :=
      hset_self _ _ _ (by simpa [Heap.get] using ho)
    simp only [List.foldl_nil, itemEvents, itemErrors, List.filterMap_nil,
      List.append_nil, h2]
  | cons it rest ih =>
    intro st o ho
    simp only [List.foldl_cons]
    cases hf : factories it.2 with
    | error e =>
      have hstep : processExportItem factories jm t st it =
          { st with thrown := st.thrown ++ [e] } := by
        simp [processExportItem, hf]
      rw [hstep, ih { st with thrown := st.thrown ++ [e] } o ho]
      simp [itemEvents, itemErrors, hf, applyItem, List.append_assoc]
    | ok v =>
      have hsn : hostSetNamed st.heap (exportedObject t) (cstr it.1) v =
          .ok (st.heap.setObj i (setProp o (cstr it.1) v)) := by
        rw [hT]
        simp [hostSetNamed, ho]
      have hstep : processExportItem factories jm t st it =
          { st with
            heap := st.heap.setObj i (setProp o (cstr it.1) v),
            events := st.events ++ [MEvent.attach jm (cstr it.1)] } := by
        simp [processExportItem, hf, hsn]
      rw [hstep]
      have hisSome : (hget st.heap.objs i).isSome = true := by
        have : hget st.heap.objs i = some o := by simpa [Heap.get] using ho
        simp [this]
      have ho2 :
          ({ st with
             heap := st.heap.setObj i (setProp o (cstr it.1) v),
             events := st.events ++ [MEvent.attach jm (cstr it.1)] } :
            InstallState).heap.get i = some (setProp o (cstr it.1) v) := by
        simp only [Heap.get, Heap.setObj]
        exact hget_hset_of_isSome _ _ _ hisSome
      rw [ih _ _ ho2]
      simp [itemEvents, itemErrors, hf, applyItem, hset_hset, Heap.setObj,
        List.append_assoc]

end NapiRegister

namespace NapiRegister

theorem processGroup_none (factories : Nat → Except Nat NValue)
    (items : List Item) (st : InstallState) (o : PropList)
    (ho : st.heap.get 0 = some o) :
    processGroup factories st none items =
      { st with
        heap := ⟨hset st.heap.objs 0 (items.foldl (applyItem factories) o), st.heap.next⟩,
        events := st.events ++ itemEvents factories none items,
        thrown := st.thrown ++ itemErrors factories items } := by
  have h := itemsFold factories none NValue.nullv 0 rfl items st o ho
  simpa [processGroup, resolveNsTarget] using h

theorem processGroup_some (factories : Nat → Except Nat NValue)
    (m : NName) (items : List Item) (st : InstallState) (o0 : PropList)
    (ho : st.heap.get 0 = some o0)
    (hm : m ∉ st.exportsObjects) (hwf : Heap.WF st.heap) :
    processGroup factories st (some m) items =
      { st with
        heap := ⟨hset (hset (st.heap.objs ++ [(st.heap.next, [])]) 0
                   (setProp o0 (cstr m) (NValue.obj st.heap.next)))
                 st.heap.next (items.foldl (applyItem factories) []),
                 st.heap.next + 1⟩,
        exportsObjects := st.exportsObjects ++ [m],
        events := st.events ++ [MEvent.createNs m] ++ itemEvents factories (some m) items,
        thrown := st.thrown ++ itemErrors factories items } := by
  have hnext0 : (0 : Nat) < st.heap.next := next_pos_of_WF _ hwf
  have hga : (⟨st.heap.objs ++ [(st.heap.next, [])], st.heap.next + 1⟩ : Heap).get 0
      = some o0 := by
    have h2 := alloc_get_ne st.heap 0 (by omega)
    rw [Heap.alloc] at h2
    exact h2.trans ho
  have hres : resolveNsTarget st (some m) =
      (NValue.obj st.heap.next,
       { st with
         heap := ⟨hset (st.heap.objs ++ [(st.heap.next, [])]) 0
                    (setProp o0 (cstr m) (NValue.obj st.heap.next)),
                  st.heap.next + 1⟩,
         exportsObjects := st.exportsObjects ++ [m],
         events := st.events ++ [MEvent.createNs m] }) := by
    simp only [resolveNsTarget, if_neg hm, Heap.alloc]
    rw [show hostSetNamed
          (⟨st.heap.objs ++ [(st.heap.next, [])], st.heap.next + 1⟩ : Heap)
          (NValue.obj 0) (cstr m) (NValue.obj st.heap.next)
        = Except.ok (Heap.setObj ⟨st.heap.objs ++ [(st.heap.next, [])], st.heap.next + 1⟩ 0
            (setProp o0 (cstr m) (NValue.obj st.heap.next))) from by
      simp [hostSetNamed, hga]]
    simp [Heap.setObj]
  have hgn :
      ({ st with
         heap := ⟨hset (st.heap.objs ++ [(st.heap.next, [])]) 0
                    (setProp o0 (cstr m) (NValue.obj st.heap.next)),
                  st.heap.next + 1⟩,
         exportsObjects := st.exportsObjects ++ [m],
         events := st.events ++ [MEvent.createNs m] } : InstallState).heap.get st.heap.next
      = some [] := by
    simp only [Heap.get]
    rw [hget_hset_ne _ _ _ _ (Nat.pos_iff_ne_zero.mp hnext0)]
    have h3 := alloc_get_new st.heap hwf
    rw [Heap.alloc] at h3
    exact h3
  rw [processGroup, hres]
  rw [itemsFold factories (some m) (NValue.obj st.heap.next) st.heap.next rfl items _ [] hgn]

end NapiRegister

namespace NapiRegister

theorem isOkB_iff {ε α : Type} (x : Except ε α) :
    isOkB x = true ↔ ∃ v, x = Except.ok v := by
  cases x <;> simp [isOkB]

theorem exportPhase_nil (records : List Rec) (factories : Nat → Except Nat NValue)
    (st : InstallState) : exportPhase records [] factories st = st := rfl

theorem exportPhase_cons (records : List Rec) (k : Option NName)
    (rest : List (Option NName)) (factories : Nat → Except Nat NValue)
    (st : InstallState) :
    exportPhase records (k :: rest) factories st =
      exportPhase records rest factories
        (processGroup factories st k (lookupGroup (groupRecords records) k)) := by
  simp [exportPhase]

theorem writtenKeys_cons (records : List Rec) (k : Option NName)
    (rest : List (Option NName)) :
    writtenKeys records (k :: rest) =
      groupKeysWritten records k ++ writtenKeys records rest := by
  simp [writtenKeys]

end NapiRegister

namespace NapiRegister

theorem expProp_eq_of_get0 {st : InstallState} {o : PropList} (key : NName)
    (h : st.heap.get 0 = some o) :
    expProp st key = getProp o key := by
  rw [expProp, h]
  rfl

theorem exportPhase_main (records : List Rec) (factories : Nat → Except Nat NValue)
    (hfac : ∀ r ∈ records, isOkB (factories r.2.2) = true) :
    ∀ (ko : List (Option NName)) (st : InstallState),
      Heap.WF st.heap →
      ko.Nodup →
      (writtenKeys records ko).Nodup →
      (∀ k ∈ ko,
        ((lookupGroup (groupRecords records) k).map (fun it => cstr it.1)).Nodup) →
      (∀ m : NName, some m ∈ ko → m ∉ st.exportsObjects) →
      (∀ r ∈ records, r.1 ∈ ko →
         Attached factories (exportPhase records ko factories st) r) ∧
      Heap.WF (exportPhase records ko factories st).heap ∧
      st.heap.next ≤ (exportPhase records ko factories st).heap.next ∧
      (∀ j, j ≠ 0 → j < st.heap.next →
         (exportPhase records ko factories st).heap.get j = st.heap.get j) ∧
      (∀ key, key ∉ writtenKeys records ko →
         expProp (exportPhase records ko factories st) key = expProp st key) ∧
      (exportPhase records ko factories st).exportsObjects
         = st.exportsObjects ++ ko.filterMap (fun x => x) ∧
      (exportPhase records ko factories st).table = st.table ∧
      (exportPhase records ko factories st).refNext = st.refNext ∧
      (exportPhase records ko factories st).panicked = st.panicked ∧
      (exportPhase records ko factories st).events
         = st.events ++ (ko.map (groupTrace records factories)).flatten := by
  intro ko
  induction ko with
  | nil =>
    intro st hwf _ _ _ _
    rw [exportPhase_nil]
    refine ⟨?_, hwf, le_refl _, ?_, ?_, ?_, rfl, rfl, rfl, ?_⟩ <;> simp
  | cons k rest ih =>
    intro st hwf hnd hwk hgr hns
    have hndr := (List.nodup_cons.mp hnd).2
    have hknr : k ∉ rest := (List.nodup_cons.mp hnd).1
    rw [writtenKeys_cons] at hwk
    have hwkr : (writtenKeys records rest).Nodup := (List.nodup_append.mp hwk).2.1
    have hdisj : ∀ x ∈ groupKeysWritten records k, x ∉ writtenKeys records rest :=
      fun x hx => (List.nodup_append.mp hwk).2.2 hx
    have hgr2 : ∀ k2 ∈ rest,
        ((lookupGroup (groupRecords records) k2).map (fun it => cstr it.1)).Nodup :=
      fun k2 hk2 => hgr k2 (List.mem_cons_of_mem _ hk2)
    obtain ⟨o0, ho⟩ := Option.isSome_iff_exists.mp hwf.2.2
    have ho2 : hget st.heap.objs 0 = some o0 := ho
    rw [exportPhase_cons]
    cases k with
    | none =>
      rw [processGroup_none factories (lookupGroup (groupRecords records) none) st o0 ho]
      have hisSome0 : (hget st.heap.objs 0).isSome = true := by simp [ho2]
      have hget01 : hget (hset st.heap.objs 0
          ((lookupGroup (groupRecords records) none).foldl (applyItem factories) o0)) 0
          = some ((lookupGroup (groupRecords records) none).foldl (applyItem factories) o0) :=
        hget_hset_of_isSome _ _ _ hisSome0
      have hwf1 : Heap.WF (st.heap.setObj 0
          ((lookupGroup (groupRecords records) none).foldl (applyItem factories) o0)) :=
        WF_setObj _ _ _ hwf
      obtain ⟨A2, B2, C2, D2, E2, F2, G2, H2, I2, J2⟩ :=
        ih { st with
             heap := ⟨hset st.heap.objs 0
               ((lookupGroup (groupRecords records) none).foldl (applyItem factories) o0),
               st.heap.next⟩,
             events := st.events ++
               itemEvents factories none (lookupGroup (groupRecords records) none),
             thrown := st.thrown ++
               itemErrors factories (lookupGroup (groupRecords records) none) }
          hwf1 hndr hwkr hgr2
          (fun m2 hm2 => hns m2 (List.mem_cons_of_mem _ hm2))
      refine ⟨?_, B2, C2, ?_, ?_, ?_, G2, H2, I2, ?_⟩
      · intro r hr hrk
        obtain ⟨r1, rn, rc⟩ := r
        rcases List.mem_cons.mp hrk with hr1 | hr1
        · subst hr1
          simp only [Attached]
          obtain ⟨v, hv⟩ := (isOkB_iff _).mp (hfac _ hr)
          refine ⟨v, hv, ?_⟩
          have hmemit : (rn, rc) ∈ lookupGroup (groupRecords records) none := by
            rw [lookupGroup_groupRecords]
            exact mem_groupSpec records (none, rn, rc) hr
          have hkey : cstr rn ∈ groupKeysWritten records none := by
            simp only [groupKeysWritten]
            exact List.mem_map.mpr ⟨(rn, rc), hmemit, rfl⟩
          calc expProp _ (cstr rn) = _ := E2 (cstr rn) (hdisj _ hkey)
            _ = getProp ((lookupGroup (groupRecords records) none).foldl
                  (applyItem factories) o0) (cstr rn) :=
              expProp_eq_of_get0 (cstr rn) hget01
            _ = some v :=
              getProp_applyFold_mem factories _ o0 rn rc v
                (hgr none (List.mem_cons_self _ _)) hmemit hv
        · exact A2 _ hr hr1
      · intro j hj hjlt
        exact (D2 j hj hjlt).trans (hget_hset_ne _ _ _ _ hj)
      · intro key hk
        rw [writtenKeys_cons] at hk
        simp only [List.mem_append, not_or] at hk
        calc expProp _ key = _ := E2 key hk.2
          _ = getProp ((lookupGroup (groupRecords records) none).foldl
                (applyItem factories) o0) key :=
            expProp_eq_of_get0 key hget01
          _ = getProp o0 key := by
            apply getProp_applyFold_notmem
            have := hk.1
            simpa [groupKeysWritten] using this
          _ = expProp st key := (expProp_eq_of_get0 key ho).symm
      · rw [F2]
        simp
      · rw [J2]
        simp [groupTrace, List.append_assoc]
    | some m =>
      have hm : m ∉ st.exportsObjects := hns m (List.mem_cons_self _ _)
      rw [processGroup_some factories m (lookupGroup (groupRecords records) (some m))
        st o0 ho hm hwf]
      have hi0 : st.heap.next ≠ 0 := Nat.pos_iff_ne_zero.mp (next_pos_of_WF _ hwf)
      have hgaA : hget (st.heap.objs ++ [(st.heap.next, [])]) 0 = some o0 := by
        have h2 := alloc_get_ne st.heap 0 (fun h => hi0 h.symm)
        rw [Heap.alloc] at h2
        exact h2.trans ho
      have hgaN : hget (st.heap.objs ++ [(st.heap.next, [])]) st.heap.next = some [] := by
        have h3 := alloc_get_new st.heap hwf
        rw [Heap.alloc] at h3
        exact h3
      have hg0 : hget (hset (hset (st.heap.objs ++ [(st.heap.next, [])]) 0
          (setProp o0 (cstr m) (NValue.obj st.heap.next))) st.heap.next
          ((lookupGroup (groupRecords records) (some m)).foldl (applyItem factories) []))
          0 = some (setProp o0 (cstr m) (NValue.obj st.heap.next)) := by
        rw [hget_hset_ne _ _ _ _ (fun h => hi0 h.symm)]
        exact hget_hset_of_isSome _ _ _ (by simp [hgaA])
      have hgi : hget (hset (hset (st.heap.objs ++ [(st.heap.next, [])]) 0
          (setProp o0 (cstr m) (NValue.obj st.heap.next))) st.heap.next
          ((lookupGroup (groupRecords records) (some m)).foldl (applyItem factories) []))
          st.heap.next
          = some ((lookupGroup (groupRecords records) (some m)).foldl (applyItem factories) []) := by
        apply hget_hset_of_isSome
        rw [hget_hset_ne _ _ _ _ hi0]
        simp [hgaN]
      have hwf1 : Heap.WF (((st.heap.alloc).2.setObj 0
          (setProp o0 (cstr m) (NValue.obj st.heap.next))).setObj st.heap.next
          ((lookupGroup (groupRecords records) (some m)).foldl (applyItem factories) [])) :=
        WF_setObj _ _ _ (WF_setObj _ _ _ (WF_alloc _ hwf))
      have hns1 : ∀ m2 : NName, some m2 ∈ rest → m2 ∉ st.exportsObjects ++ [m] := by
        intro m2 hm2 hmem
        rcases List.mem_append.mp hmem with h | h
        · exact hns m2 (List.mem_cons_of_mem _ hm2) h
        · simp only [List.mem_singleton] at h
          subst h
          exact hknr hm2
      obtain ⟨A2, B2, C2, D2, E2, F2, G2, H2, I2, J2⟩ :=
        ih { st with
             heap := ⟨hset (hset (st.heap.objs ++ [(st.heap.next, [])]) 0
                        (setProp o0 (cstr m) (NValue.obj st.heap.next)))
                      st.heap.next
                      ((lookupGroup (groupRecords records) (some m)).foldl
                        (applyItem factories) []),
                      st.heap.next + 1⟩,
             exportsObjects := st.exportsObjects ++ [m],
             events := st.events ++ [MEvent.createNs m] ++
               itemEvents factories (some m) (lookupGroup (groupRecords records) (some m)),
             thrown := st.thrown ++
               itemErrors factories (lookupGroup (groupRecords records) (some m)) }
          hwf1 hndr hwkr hgr2 hns1
      have hkeym : cstr m ∈ groupKeysWritten records (some m) := by
        simp [groupKeysWritten]
      refine ⟨?_, B2, ?_, ?_, ?_, ?_, G2, H2, I2, ?_⟩
      · intro r hr hrk
        obtain ⟨r1, rn, rc⟩ := r
        rcases List.mem_cons.mp hrk with hr1 | hr1
        · subst hr1
          simp only [Attached]
          obtain ⟨v, hv⟩ := (isOkB_iff _).mp (hfac _ hr)
          have hmemit : (rn, rc) ∈ lookupGroup (groupRecords records) (some m) := by
            rw [lookupGroup_groupRecords]
            exact mem_groupSpec records (some m, rn, rc) hr
          refine ⟨st.heap.next,
            (lookupGroup (groupRecords records) (some m)).foldl (applyItem factories) [],
            v, ?_, ?_, hv, ?_⟩
          · calc expProp _ (cstr m) = _ := E2 (cstr m) (hdisj _ hkeym)
              _ = getProp (setProp o0 (cstr m) (NValue.obj st.heap.next)) (cstr m) :=
                expProp_eq_of_get0 (cstr m) hg0
              _ = some (NValue.obj st.heap.next) := getProp_setProp_same _ _ _
          · exact (D2 st.heap.next hi0 (Nat.lt_succ_self _)).trans hgi
          · exact getProp_applyFold_mem factories _ [] rn rc v
              (hgr (some m) (List.mem_cons_self _ _)) hmemit hv
        · exact A2 _ hr hr1
      · exact le_trans (Nat.le_succ _) C2
      · intro j hj hjlt
        have hjn : j ≠ st.heap.next := fun h => absurd hjlt (by rw [h]; exact lt_irrefl _)
        have e1 : hget (hset (hset (st.heap.objs ++ [(st.heap.next, [])]) 0
            (setProp o0 (cstr m) (NValue.obj st.heap.next))) st.heap.next
            ((lookupGroup (groupRecords records) (some m)).foldl (applyItem factories) [])) j
            = hget (hset (st.heap.objs ++ [(st.heap.next, [])]) 0
                (setProp o0 (cstr m) (NValue.obj st.heap.next))) j :=
          hget_hset_ne _ _ _ _ hjn
        have e2 : hget (hset (st.heap.objs ++ [(st.heap.next, [])]) 0
            (setProp o0 (cstr m) (NValue.obj st.heap.next))) j
            = hget (st.heap.objs ++ [(st.heap.next, [])]) j := hget_hset_ne _ _ _ _ hj
        exact (D2 j hj (Nat.lt_succ_of_lt hjlt)).trans
          (e1.trans (e2.trans (alloc_get_ne st.heap j hjn)))
      · intro key hk
        rw [writtenKeys_cons] at hk
        simp only [List.mem_append, not_or] at hk
        have hkm : key ≠ cstr m := by
          intro h
          exact hk.1 (by simp [groupKeysWritten, h])
        calc expProp _ key = _ := E2 key hk.2
          _ = getProp (setProp o0 (cstr m) (NValue.obj st.heap.next)) key :=
            expProp_eq_of_get0 key hg0
          _ = getProp o0 key := getProp_setProp_ne _ _ _ _ hkm
          _ = expProp st key := (expProp_eq_of_get0 key ho).symm
      · rw [F2]
        simp
      · rw [J2]
        simp [groupTrace, List.append_assoc]

end NapiRegister

namespace NapiRegister

theorem registerAll_eq (calls : List Rec) : registerAll calls = calls := by
  suffices h : ∀ acc : List Rec,
      calls.foldl (fun s c => register_module_export s c.1 c.2.1 c.2.2) acc
        = acc ++ calls by
    simpa [registerAll] using h []
  induction calls with
  | nil => intro acc; simp
  | cons c rest ih =>
    intro acc
    rw [List.foldl_cons, ih]
    simp [register_module_export]

theorem publishAndFlag_heap (st : InstallState) :
    (publishAndFlag st).heap = st.heap := by
  rw [publishAndFlag]
  split <;> rfl

theorem classPhase_nil (st : InstallState) : classPhase [] st = st := rfl

theorem attached_congr (factories : Nat → Except Nat NValue)
    {st1 st2 : InstallState} (h : st1.heap = st2.heap) (r : Rec) :
    Attached factories st1 r ↔ Attached factories st2 r := by
  have e1 : ∀ key, expProp st1 key = expProp st2 key := by
    intro key
    rw [expProp, expProp, h]
  have e2 : ∀ i, st1.heap.get i = st2.heap.get i := by
    intro i
    rw [h]
  obtain ⟨r1, rn, rc⟩ := r
  cases r1 <;> simp only [Attached, e1, e2]

theorem initHeap_WF : Heap.WF initHeap := by
  refine ⟨?_, ?_, ?_⟩ <;> simp [initHeap, Heap.get, hget]

/-- C1: for every sequence of `register_module_export` calls followed by one
invocation of `napi_register_module_v1` (with an empty class registry), if
every factory succeeds *and* the host-visible names involved do not collide
(distinct written keys on the exports object, distinct names within each
namespace group — necessary, since `napi_set_named_property` overwrites and
duplicates are not deduplicated, see the counterexample below), then every
registered `(namespace, name)` pair is an attached property of the exports
object (namespace `none`) or of its namespace sub-object, holding the value
its factory produced. -/
theorem c1_every_export_attached (calls : List Rec)
    (factories : Nat → Except Nat NValue) (keyOrder : List (Option NName))
    (hko : ValidKeyOrder (registerAll calls) keyOrder)
    (hfac : ∀ r ∈ registerAll calls, isOkB (factories r.2.2) = true)
    (hwk : (writtenKeys (registerAll calls) keyOrder).Nodup)
    (hgr : ∀ k ∈ keyOrder,
      ((lookupGroup (groupRecords (registerAll calls)) k).map
        (fun it => cstr it.1)).Nodup) :
    ∀ r ∈ registerAll calls,
      Attached factories
        (napi_register_module_v1 (registerAll calls) factories keyOrder [] initHeap)
        r := by
  intro r hr
  have hnd : keyOrder.Nodup :=
    (List.Perm.nodup_iff hko).mpr (groupKeys_nodup (registerAll calls))
  have hns : ∀ m : NName, some m ∈ keyOrder →
      m ∉ (initState initHeap).exportsObjects := by
    intro m _ hmem
    simp [initState] at hmem
  obtain ⟨A, _, _, _, _, _, _, _, _, _⟩ :=
    exportPhase_main (registerAll calls) factories hfac keyOrder
      (initState initHeap) initHeap_WF hnd hwk hgr hns
  have hkmem : r.1 ∈ keyOrder :=
    (List.Perm.mem_iff hko).mpr (mem_groupKeys _ r hr)
  have hA := A r hr hkmem
  have hheq :
      (napi_register_module_v1 (registerAll calls) factories keyOrder [] initHeap).heap
        = (exportPhase (registerAll calls) keyOrder factories (initState initHeap)).heap := by
    rw [napi_register_module_v1, classPhase_nil, publishAndFlag_heap]
  exact (attached_congr factories hheq r).mpr hA

/-- C1 counterexample: the claim as stated assumes only that every factory
succeeds, but it fails on a registration sequence with a duplicate
`(namespace, name)` pair — which `register_module_export` permits and does not
deduplicate.  Registering `(None, "a")` twice with different factories (both
succeeding), the single run attaches the property `"a"` with the value of the
*second* factory (`napi_set_named_property` overwrites), so the first
registered pair is not attached with the value produced by *its* factory. -/
theorem c1_counterexample :
    (∀ r ∈ registerAll [(none, ['a', nulc], 1), (none, ['a', nulc], 2)],
      isOkB ((fun n => (Except.ok (NValue.val n) : Except Nat NValue)) r.2.2)
        = true) ∧
    ValidKeyOrder (registerAll [(none, ['a', nulc], 1), (none, ['a', nulc], 2)])
      [none] ∧
    (none, ['a', nulc], 1)
      ∈ registerAll [(none, ['a', nulc], 1), (none, ['a', nulc], 2)] ∧
    ¬ Attached (fun n => Except.ok (NValue.val n))
      (napi_register_module_v1
        (registerAll [(none, ['a', nulc], 1), (none, ['a', nulc], 2)])
        (fun n => Except.ok (NValue.val n)) [none] [] initHeap)
      (none, ['a', nulc], 1) := by
  refine ⟨by decide, by simp only [ValidKeyOrder]; decide, by decide, ?_⟩
  intro h
  simp only [Attached] at h
  obtain ⟨v, hv, he⟩ := h
  have hv2 : v = NValue.val 1 := by
    simpa using hv.symm
  subst hv2
  have hexp : expProp
      (napi_register_module_v1
        (registerAll [(none, ['a', nulc], 1), (none, ['a', nulc], 2)])
        (fun n => Except.ok (NValue.val n)) [none] [] initHeap)
      (cstr ['a', nulc]) = some (NValue.val 2) := by decide
  rw [hexp] at he
  simp at he

/-- Witness for the amended C1 at a concrete registration sequence. -/
theorem c1_witness :
    Attached (fun n => Except.ok (NValue.val n))
      (napi_register_module_v1
        (registerAll [(none, ['a', nulc], 1), (some ['m', nulc], ['b', nulc], 2)])
        (fun n => Except.ok (NValue.val n))
        [none, some ['m', nulc]] [] initHeap)
      (some ['m', nulc], ['b', nulc], 2) :=
  c1_every_export_attached
    [(none, ['a', nulc], 1), (some ['m', nulc], ['b', nulc], 2)]
    (fun n => Except.ok (NValue.val n))
    [none, some ['m', nulc]]
    (by simp only [ValidKeyOrder]; decide) (by decide) (by decide) (by decide)
    (some ['m', nulc], ['b', nulc], 2) (by decide)

end NapiRegister

namespace NapiRegister

theorem expProp_publishAndFlag (st : InstallState) (key : NName) :
    expProp (publishAndFlag st) key = expProp st key := by
  rw [expProp, expProp, publishAndFlag_heap]

theorem publishAndFlag_thrown (st : InstallState) :
    (publishAndFlag st).thrown = st.thrown := by
  rw [publishAndFlag]
  split <;> rfl

/-- C2: in a drain of three exports where the second factory fails (and the
other two succeed), the error of the second is thrown into the env exactly
once, and the first and third exports are still attached with their values. -/
theorem c2_partial_failure (n1 n2 n3 : NName) (v1 v3 : NValue) (e : Nat)
    (factories : Nat → Except Nat NValue)
    (hf1 : factories 1 = Except.ok v1) (hf2 : factories 2 = Except.error e)
    (hf3 : factories 3 = Except.ok v3)
    (h13 : cstr n1 ≠ cstr n3) :
    expProp (napi_register_module_v1 [(none, n1, 1), (none, n2, 2), (none, n3, 3)]
        factories [none] [] initHeap) (cstr n1) = some v1 ∧
    expProp (napi_register_module_v1 [(none, n1, 1), (none, n2, 2), (none, n3, 3)]
        factories [none] [] initHeap) (cstr n3) = some v3 ∧
    (napi_register_module_v1 [(none, n1, 1), (none, n2, 2), (none, n3, 3)]
        factories [none] [] initHeap).thrown = [e] := by
  have hitems : lookupGroup
      (groupRecords [(none, n1, 1), (none, n2, 2), (none, n3, 3)]) none
      = [(n1, 1), (n2, 2), (n3, 3)] := by
    simp [groupRecords, lookupGroup, assocUpdate, assocFind]
  have hfold : ([(n1, 1), (n2, 2), (n3, 3)] : List Item).foldl
      (applyItem factories) [] = [(cstr n1, v1), (cstr n3, v3)] := by
    simp [applyItem, hf1, hf2, hf3, setProp, h13]
  have herr : itemErrors factories [(n1, 1), (n2, 2), (n3, 3)] = [e] := by
    simp [itemErrors, hf1, hf2, hf3]
  have hrun : napi_register_module_v1 [(none, n1, 1), (none, n2, 2), (none, n3, 3)]
      factories [none] [] initHeap
      = publishAndFlag
          (processGroup factories (initState initHeap) none
            (lookupGroup (groupRecords [(none, n1, 1), (none, n2, 2), (none, n3, 3)]) none)) :=
    rfl
  rw [hrun, processGroup_none factories _ (initState initHeap) [] rfl, hitems, hfold, herr]
  have hget0 : hget (hset [((0 : Nat), ([] : PropList))] 0
      [(cstr n1, v1), (cstr n3, v3)]) 0 = some [(cstr n1, v1), (cstr n3, v3)] := rfl
  refine ⟨?_, ?_, ?_⟩
  · rw [expProp_publishAndFlag]
    simp [expProp, Heap.get, initState, initHeap, hset, hget, getProp]
  · rw [expProp_publishAndFlag]
    simp [expProp, Heap.get, initState, initHeap, hset, hget, getProp, h13]
  · rw [publishAndFlag_thrown]
    rfl

/-- Witness for C2 at concrete names and values. -/
theorem c2_witness :
    expProp (napi_register_module_v1
        [(none, ['a', nulc], 1), (none, ['b', nulc], 2), (none, ['c', nulc], 3)]
        (fun n => if n = 2 then Except.error 7 else Except.ok (NValue.val n))
        [none] [] initHeap) (cstr ['a', nulc]) = some (NValue.val 1) ∧
    expProp (napi_register_module_v1
        [(none, ['a', nulc], 1), (none, ['b', nulc], 2), (none, ['c', nulc], 3)]
        (fun n => if n = 2 then Except.error 7 else Except.ok (NValue.val n))
        [none] [] initHeap) (cstr ['c', nulc]) = some (NValue.val 3) ∧
    (napi_register_module_v1
        [(none, ['a', nulc], 1), (none, ['b', nulc], 2), (none, ['c', nulc], 3)]
        (fun n => if n = 2 then Except.error 7 else Except.ok (NValue.val n))
        [none] [] initHeap).thrown = [7] :=
  c2_partial_failure ['a', nulc] ['b', nulc] ['c', nulc]
    (NValue.val 1) (NValue.val 3) 7
    (fun n => if n = 2 then Except.error 7 else Except.ok (NValue.val n))
    rfl rfl rfl (by decide)

end NapiRegister

namespace NapiRegister

/-- C4 counterexample: the host's exports object already carries a property
`"m"` referring to an existing object (id 1), yet the installer does not
detect or reuse it: it allocates a fresh namespace object (id 2), overwrites
the pre-existing property, and attaches the export there.  The local
`exports_objects` set starts empty on every run, and no
`napi_has_named_property`-style lookup is performed. -/
theorem c4_counterexample :
    expProp (napi_register_module_v1 [(some ['m', nulc], ['x', nulc], 1)]
        (fun n => Except.ok (NValue.val n)) [some ['m', nulc]] []
        ⟨[(0, [(['m'], NValue.obj 1)]), (1, [(['o'], NValue.val 9)])], 2⟩) ['m']
      = some (NValue.obj 2) ∧
    some (NValue.obj 2) ≠ some (NValue.obj 1) ∧
    MEvent.createNs ['m', nulc] ∈
      (napi_register_module_v1 [(some ['m', nulc], ['x', nulc], 1)]
        (fun n => Except.ok (NValue.val n)) [some ['m', nulc]] []
        ⟨[(0, [(['m'], NValue.obj 1)]), (1, [(['o'], NValue.val 9)])], 2⟩).events := by
  refine ⟨?_, by decide, ?_⟩ <;> decide

/-- C4 (amended): two exports registered under the same namespace with
different names lead to exactly one namespace-object creation; both exports
end up as properties of that single shared object. -/
theorem c4_single_namespace_object (m n1 n2 : NName) (v1 v2 : NValue)
    (factories : Nat → Except Nat NValue)
    (hf1 : factories 1 = Except.ok v1) (hf2 : factories 2 = Except.ok v2)
    (h12 : cstr n1 ≠ cstr n2) :
    ((napi_register_module_v1 [(some m, n1, 1), (some m, n2, 2)] factories
        [some m] [] initHeap).events.filter
      (fun e => match e with | MEvent.createNs _ => true | _ => false))
      = [MEvent.createNs m] ∧
    expProp (napi_register_module_v1 [(some m, n1, 1), (some m, n2, 2)] factories
        [some m] [] initHeap) (cstr m) = some (NValue.obj 1) ∧
    (napi_register_module_v1 [(some m, n1, 1), (some m, n2, 2)] factories
        [some m] [] initHeap).heap.get 1 = some [(cstr n1, v1), (cstr n2, v2)] := by
  have hitems : lookupGroup (groupRecords [(some m, n1, 1), (some m, n2, 2)]) (some m)
      = [(n1, 1), (n2, 2)] := by
    simp [groupRecords, lookupGroup, assocUpdate, assocFind]
  have hrun : napi_register_module_v1 [(some m, n1, 1), (some m, n2, 2)] factories
      [some m] [] initHeap
      = publishAndFlag (processGroup factories (initState initHeap) (some m)
          (lookupGroup (groupRecords [(some m, n1, 1), (some m, n2, 2)]) (some m))) :=
    rfl
  have hfold : ([(n1, 1), (n2, 2)] : List Item).foldl (applyItem factories) []
      = [(cstr n1, v1), (cstr n2, v2)] := by
    simp [applyItem, hf1, hf2, setProp, h12]
  have hev : itemEvents factories (some m) [(n1, 1), (n2, 2)]
      = [MEvent.attach (some m) (cstr n1), MEvent.attach (some m) (cstr n2)] := by
    simp [itemEvents, hf1, hf2]
  rw [hrun, hitems,
    processGroup_some factories m [(n1, 1), (n2, 2)] (initState initHeap) [] rfl
      (by simp [initState]) initHeap_WF, hfold, hev]
  refine ⟨?_, ?_, ?_⟩
  · simp [publishAndFlag, initState, List.filter]
  · rw [expProp_publishAndFlag]
    simp [expProp, Heap.get, initState, initHeap, hset, hget, getProp]
  · rw [show ∀ st : InstallState, (publishAndFlag st).heap = st.heap from publishAndFlag_heap]
    simp [Heap.get, initState, initHeap, hset, hget]

/-- Witness for the amended C4 at concrete inputs. -/
theorem c4_witness :
    ((napi_register_module_v1
        [(some ['m', nulc], ['a', nulc], 1), (some ['m', nulc], ['b', nulc], 2)]
        (fun n => Except.ok (NValue.val n)) [some ['m', nulc]] [] initHeap).events.filter
      (fun e => match e with | MEvent.createNs _ => true | _ => false))
      = [MEvent.createNs ['m', nulc]] ∧
    expProp (napi_register_module_v1
        [(some ['m', nulc], ['a', nulc], 1), (some ['m', nulc], ['b', nulc], 2)]
        (fun n => Except.ok (NValue.val n)) [some ['m', nulc]] [] initHeap)
      (cstr ['m', nulc]) = some (NValue.obj 1) ∧
    (napi_register_module_v1
        [(some ['m', nulc], ['a', nulc], 1), (some ['m', nulc], ['b', nulc], 2)]
        (fun n => Except.ok (NValue.val n)) [some ['m', nulc]] [] initHeap).heap.get 1
      = some [(cstr ['a', nulc], NValue.val 1), (cstr ['b', nulc], NValue.val 2)] :=
  c4_single_namespace_object ['m', nulc] ['a', nulc] ['b', nulc]
    (NValue.val 1) (NValue.val 2) (fun n => Except.ok (NValue.val n))
    rfl rfl (by decide)

end NapiRegister

namespace NapiRegister

theorem attachTrace_append (k : Option NName) (l1 l2 : List MEvent) :
    attachTrace k (l1 ++ l2) = attachTrace k l1 ++ attachTrace k l2 := by
  simp [attachTrace]

theorem attachTrace_itemEvents_self (factories : Nat → Except Nat NValue)
    (k : Option NName) (items : List Item)
    (hok : ∀ it ∈ items, isOkB (factories it.2) = true) :
    attachTrace k (itemEvents factories k items)
      = items.map (fun it => cstr it.1) := by
  induction items with
  | nil => rfl
  | cons it rest ih =>
    obtain ⟨v, hv⟩ := (isOkB_iff _).mp (hok it (List.mem_cons_self _ _))
    have ihr := ih (fun it2 h2 => hok it2 (List.mem_cons_of_mem _ h2))
    simp [itemEvents, attachTrace, hv] at ihr ⊢
    exact ihr

theorem attachTrace_itemEvents_other (factories : Nat → Except Nat NValue)
    (k k2 : Option NName) (h : k2 ≠ k) (items : List Item) :
    attachTrace k (itemEvents factories k2 items) = [] := by
  induction items with
  | nil => rfl
  | cons it rest ih =>
    cases hv : factories it.2 with
    | ok v => simpa [itemEvents, attachTrace, hv, h] using ih
    | error e => simpa [itemEvents, attachTrace, hv] using ih

theorem attachTrace_groupTrace_self (records : List Rec)
    (factories : Nat → Except Nat NValue) (k : Option NName)
    (hok : ∀ it ∈ lookupGroup (groupRecords records) k, isOkB (factories it.2) = true) :
    attachTrace k (groupTrace records factories k)
      = (lookupGroup (groupRecords records) k).map (fun it => cstr it.1) := by
  rw [groupTrace.eq_def, attachTrace_append,
    attachTrace_itemEvents_self factories k _ hok]
  cases k <;> rfl

theorem attachTrace_groupTrace_other (records : List Rec)
    (factories : Nat → Except Nat NValue) (k k2 : Option NName) (h : k2 ≠ k) :
    attachTrace k (groupTrace records factories k2) = [] := by
  rw [groupTrace.eq_def, attachTrace_append,
    attachTrace_itemEvents_other factories k k2 h]
  cases k2 <;> simp [attachTrace]

theorem attachTrace_flatten_notmem (records : List Rec)
    (factories : Nat → Except Nat NValue) (k : Option NName) :
    ∀ ko : List (Option NName), k ∉ ko →
    attachTrace k ((ko.map (groupTrace records factories)).flatten) = [] := by
  intro ko
  induction ko with
  | nil => intro _; rfl
  | cons k2 rest ih =>
    intro hk
    simp only [List.map_cons, List.flatten_cons]
    rw [attachTrace_append,
      attachTrace_groupTrace_other records factories k k2
        (fun he => hk (he ▸ List.mem_cons_self _ _)),
      ih (fun h2 => hk (List.mem_cons_of_mem _ h2))]
    rfl

theorem attachTrace_flatten_mem (records : List Rec)
    (factories : Nat → Except Nat NValue) (k : Option NName) :
    ∀ ko : List (Option NName), ko.Nodup → k ∈ ko →
    (∀ it ∈ lookupGroup (groupRecords records) k, isOkB (factories it.2) = true) →
    attachTrace k ((ko.map (groupTrace records factories)).flatten)
      = (lookupGroup (groupRecords records) k).map (fun it => cstr it.1) := by
  intro ko
  induction ko with
  | nil => intro _ hk; simp at hk
  | cons k2 rest ih =>
    intro hnd hk hok
    simp only [List.map_cons, List.flatten_cons]
    rw [attachTrace_append]
    rcases List.mem_cons.mp hk with he | he
    · subst he
      rw [attachTrace_groupTrace_self records factories k hok,
        attachTrace_flatten_notmem records factories k rest
          (List.nodup_cons.mp hnd).1]
      simp
    · have hne : k2 ≠ k := by
        intro h2
        subst h2
        exact (List.nodup_cons.mp hnd).1 he
      rw [attachTrace_groupTrace_other records factories k k2 hne,
        ih (List.nodup_cons.mp hnd).2 he hok]
      rfl

end NapiRegister

namespace NapiRegister

/-- C7 counterexample: with the same registration sequence, two hash-map
iteration orders that are both valid (permutations of the group keys, as Rust
leaves the order unspecified and reseeds every map) make the installer perform
its namespace creations and export attachments in different orders — the
event traces of the two runs differ. -/
theorem c7_counterexample :
    ValidKeyOrder [(none, ['a', nulc], 1), (some ['m', nulc], ['b', nulc], 2)]
      [none, some ['m', nulc]] ∧
    ValidKeyOrder [(none, ['a', nulc], 1), (some ['m', nulc], ['b', nulc], 2)]
      [some ['m', nulc], none] ∧
    (napi_register_module_v1 [(none, ['a', nulc], 1), (some ['m', nulc], ['b', nulc], 2)]
        (fun n => Except.ok (NValue.val n)) [none, some ['m', nulc]] [] initHeap).events
      ≠ (napi_register_module_v1 [(none, ['a', nulc], 1), (some ['m', nulc], ['b', nulc], 2)]
        (fun n => Except.ok (NValue.val n)) [some ['m', nulc], none] [] initHeap).events := by
  refine ⟨?_, ?_, ?_⟩
  · simp only [ValidKeyOrder]
    decide
  · simp only [ValidKeyOrder]
    decide
  · decide

/-- C7 (amended): what is deterministic is the order within each namespace
group — for any valid hash iteration order (and non-colliding names with
succeeding factories), the attachments carrying a group's label appear in
exactly the registration order of that group.  The interleaving across
groups follows the hash-map iteration order and may differ between runs. -/
theorem c7_per_group_order (calls : List Rec)
    (factories : Nat → Except Nat NValue) (keyOrder : List (Option NName))
    (hko : ValidKeyOrder (registerAll calls) keyOrder)
    (hfac : ∀ r ∈ registerAll calls, isOkB (factories r.2.2) = true)
    (hwk : (writtenKeys (registerAll calls) keyOrder).Nodup)
    (hgr : ∀ k ∈ keyOrder,
      ((lookupGroup (groupRecords (registerAll calls)) k).map
        (fun it => cstr it.1)).Nodup) :
    ∀ k ∈ keyOrder,
      attachTrace k
        ((napi_register_module_v1 (registerAll calls) factories keyOrder [] initHeap).events)
        = (lookupGroup (groupRecords (registerAll calls)) k).map (fun it => cstr it.1) := by
  intro k hk
  have hnd : keyOrder.Nodup :=
    (List.Perm.nodup_iff hko).mpr (groupKeys_nodup (registerAll calls))
  have hns : ∀ m : NName, some m ∈ keyOrder →
      m ∉ (initState initHeap).exportsObjects := by
    intro m _ hmem
    simp [initState] at hmem
  obtain ⟨_, _, _, _, _, _, _, _, I, J⟩ :=
    exportPhase_main (registerAll calls) factories hfac keyOrder
      (initState initHeap) initHeap_WF hnd hwk hgr hns
  have hok : ∀ it ∈ lookupGroup (groupRecords (registerAll calls)) k,
      isOkB (factories it.2) = true := by
    intro it hit
    rw [lookupGroup_groupRecords] at hit
    exact hfac (k, it) (groupSpec_mem _ _ _ hit)
  have hpk : (exportPhase (registerAll calls) keyOrder factories
      (initState initHeap)).panicked = false := I
  have hevs :
      (napi_register_module_v1 (registerAll calls) factories keyOrder [] initHeap).events
        = (exportPhase (registerAll calls) keyOrder factories (initState initHeap)).events
          ++ [MEvent.storeSlot
                (exportPhase (registerAll calls) keyOrder factories (initState initHeap)).table,
              MEvent.storeRegistered] := by
    rw [napi_register_module_v1, classPhase_nil, publishAndFlag]
    rw [if_neg (by rw [hpk]; exact Bool.false_ne_true)]
  rw [hevs, attachTrace_append, J]
  have hsuffix : attachTrace k
      [MEvent.storeSlot
         (exportPhase (registerAll calls) keyOrder factories (initState initHeap)).table,
       MEvent.storeRegistered] = [] := rfl
  rw [hsuffix]
  have hinit : (initState initHeap).events = [] := rfl
  rw [hinit]
  rw [List.nil_append]
  rw [attachTrace_flatten_mem (registerAll calls) factories k keyOrder hnd hk hok]
  simp

/-- Witness for the amended C7 at a concrete run. -/
theorem c7_witness :
    attachTrace (some ['m', nulc])
      ((napi_register_module_v1
        (registerAll [(none, ['a', nulc], 1), (some ['m', nulc], ['b', nulc], 2)])
        (fun n => Except.ok (NValue.val n)) [some ['m', nulc], none] [] initHeap).events)
      = (lookupGroup (groupRecords
          (registerAll [(none, ['a', nulc], 1), (some ['m', nulc], ['b', nulc], 2)]))
          (some ['m', nulc])).map (fun it => cstr it.1) :=
  c7_per_group_order [(none, ['a', nulc], 1), (some ['m', nulc], ['b', nulc], 2)]
    (fun n => Except.ok (NValue.val n)) [some ['m', nulc], none]
    (by simp only [ValidKeyOrder]; decide) (by decide) (by decide) (by decide)
    (some ['m', nulc]) (by decide)

end NapiRegister

namespace NapiRegister

/-- C5 counterexample: a factory *recorded* via `register_js_function`, but
with a null `sys::napi_callback`, makes `get_c_callback` fail with the
InvalidArg error even though the factory was recorded — refuting "for every
factory that was recorded, both succeed". -/
theorem c5_counterexample :
    (assocFind (register_js_function [] ['f', nulc] 7 none) 7).isSome = true ∧
    get_c_callback true (register_js_function [] ['f', nulc] 7 none) 7
      = LookupOutcome.ok (Except.error fnNotExist) ∧
    get_js_function true (register_js_function [] ['f', nulc] 7 none) 7
      = LookupOutcome.ok (Except.error fnNotExist) :=
  ⟨rfl, rfl, rfl⟩

/-- C5 (amended): a factory never recorded in `FN_REGISTER_MAP` makes both
`get_js_function` and `get_c_callback` fail with the InvalidArg error; a
factory recorded with a non-null native callback makes both succeed, and the
native callback backing the created function handle is exactly the one
`get_c_callback` returns; a factory recorded with a null native callback
makes both fail with the same InvalidArg error. -/
theorem c5_lookup_contract (m : FnMap) (f : Nat) :
    (assocFind m f = none →
      get_js_function true m f = LookupOutcome.ok (Except.error fnNotExist) ∧
      get_c_callback true m f = LookupOutcome.ok (Except.error fnNotExist)) ∧
    (∀ (c : Nat) (n : NName), assocFind m f = some (some c, n) →
      get_js_function true m f
        = LookupOutcome.ok (Except.ok ⟨cstr n, n.length - 1, c⟩) ∧
      get_c_callback true m f = LookupOutcome.ok (Except.ok c)) ∧
    (∀ n : NName, assocFind m f = some (none, n) →
      get_js_function true m f = LookupOutcome.ok (Except.error fnNotExist) ∧
      get_c_callback true m f = LookupOutcome.ok (Except.error fnNotExist)) := by
  refine ⟨?_, ?_, ?_⟩
  · intro h
    constructor <;> simp [get_js_function, get_c_callback, h]
  · intro c n h
    constructor <;> simp [get_js_function, get_c_callback, h, napi_create_function]
  · intro n h
    constructor <;> simp [get_js_function, get_c_callback, h, napi_create_function]

/-- Witness for the amended C5: a recorded factory with a non-null callback. -/
theorem c5_witness :
    get_js_function true (register_js_function [] ['f', nulc] 5 (some 9)) 5
      = LookupOutcome.ok (Except.ok ⟨cstr ['f', nulc], (['f', nulc] : NName).length - 1, 9⟩) ∧
    get_c_callback true (register_js_function [] ['f', nulc] 5 (some 9)) 5
      = LookupOutcome.ok (Except.ok 9) :=
  (c5_lookup_contract (register_js_function [] ['f', nulc] 5 (some 9)) 5).2.1
    9 ['f', nulc] rfl

/-- C6: `register_class` on an `(implId, namespace)` pair that is already
present replaces the exposed name with the newer one and appends the new
properties behind the existing ones; on an absent pair it creates a fresh
record holding exactly the new properties.  Both cases are summarized by one
equation on the nested lookup. -/
theorem c6_register_class_merge (reg : ClassRegistry) (rust_name : String)
    (js_mod : Option NName) (js_name : NName) (props : List Property) :
    (assocFind (register_class reg rust_name js_mod js_name props) rust_name).bind
        (fun inner => assocFind inner js_mod)
      = some (js_name,
          ((((assocFind reg rust_name).bind (fun inner => assocFind inner js_mod)).map
            (fun v => v.2)).getD []) ++ props) := by
  rw [register_class, assocFind_assocUpdate_same]
  simp only [Option.some_bind]
  rw [assocFind_assocUpdate_same]
  cases h1 : assocFind reg rust_name with
  | none => simp [assocFind]
  | some inner0 =>
    cases h2 : assocFind inner0 js_mod with
    | none => simp [h2]
    | some v => simp [h2]

end NapiRegister

namespace NapiRegister

/-- C8: on a thread on which `napi_register_module_v1` never ran, the
thread-local `REGISTERED_CLASSES` slot does not exist; once the spin on
`REGISTERED` completes (another thread registered), `get_class_constructor`
panics on `.unwrap()` — it does not return an absent value or an error. -/
theorem c8_panics_on_foreign_thread (js_name : NName) :
    get_class_constructor true none js_name = LookupOutcome.panics := rfl

theorem takeWhile_append_all (p : Char → Bool) (l1 l2 : List Char)
    (h : ∀ c ∈ l1, p c = true) :
    (l1 ++ l2).takeWhile p = l1 ++ l2.takeWhile p := by
  induction l1 with
  | nil => simp
  | cons c rest ih =>
    have hc := h c (List.mem_cons_self _ _)
    simp [List.takeWhile_cons, hc,
      ih (fun c2 h2 => h c2 (List.mem_cons_of_mem _ h2))]

/-- C10 (amended): a name that is non-empty, NUL-terminated *and has no
interior NUL* suffers no length underflow from `name.len() - 1`, and the
host-visible C string is exactly the name without its trailing NUL. -/
theorem c10_valid_names (s : NName) (h : ValidName s) :
    1 ≤ s.length ∧ cstr s = s.dropLast ∧ s.dropLast.length = s.length - 1 := by
  obtain ⟨hne, hlast, hmid⟩ := h
  refine ⟨?_, ?_, List.length_dropLast s⟩
  · exact Nat.succ_le_of_lt (List.length_pos.mpr hne)
  · have hs : s.dropLast ++ [nulc] = s := by
      have h2 := List.dropLast_append_getLast hne
      have h3 : s.getLast hne = nulc := by
        have h4 := List.getLast?_eq_getLast s hne
        rw [h4] at hlast
        exact Option.some_injective _ hlast
      rw [h3] at h2
      exact h2
    calc cstr s = cstr (s.dropLast ++ [nulc]) := by rw [hs]
      _ = s.dropLast ++ ([nulc] : List Char).takeWhile (fun c => c ≠ nulc) := by
        rw [cstr, takeWhile_append_all _ _ _ (fun c hc => decide_eq_true (hmid c hc))]
      _ = s.dropLast := by simp [List.takeWhile_cons]

/-- Witness for the amended C10. -/
theorem c10_witness :
    1 ≤ (['a', nulc] : NName).length ∧
    cstr ['a', nulc] = (['a', nulc] : NName).dropLast ∧
    (['a', nulc] : NName).dropLast.length = (['a', nulc] : NName).length - 1 :=
  c10_valid_names ['a', nulc] (by refine ⟨by decide, by decide, by decide⟩)

/-- C10 counterexample: `"a\x00b\x00"` is non-empty and ends in NUL — it
satisfies the claim's stated precondition — yet the host-visible C string
`cstr` is `"a"`, not the string minus its trailing NUL (`"a\x00b"`): the
claim's precondition is too weak because it does not exclude interior NULs. -/
theorem c10_counterexample :
    (['a', nulc, 'b', nulc] : NName) ≠ [] ∧
    (['a', nulc, 'b', nulc] : NName).getLast? = some nulc ∧
    cstr ['a', nulc, 'b', nulc] ≠ (['a', nulc, 'b', nulc] : NName).dropLast := by
  refine ⟨by decide, by decide, by decide⟩

end NapiRegister

namespace NapiRegister

theorem resolveNsTarget_frame (st : InstallState) (k : Option NName) :
    (resolveNsTarget st k).2.panicked = st.panicked ∧
    (resolveNsTarget st k).2.table = st.table ∧
    (resolveNsTarget st k).2.refNext = st.refNext ∧
    ∀ e ∈ (resolveNsTarget st k).2.events,
      e ∈ st.events ∨ ∃ m2, e = MEvent.createNs m2 := by
  cases k with
  | none => exact ⟨rfl, rfl, rfl, fun e he => Or.inl he⟩
  | some m =>
    by_cases hm : m ∈ st.exportsObjects
    · cases hg : hostGetNamed st.heap (NValue.obj 0) (cstr m) with
      | ok v =>
        simp only [resolveNsTarget, if_pos hm, hg]
        exact ⟨trivial, trivial, trivial, fun e he => Or.inl he⟩
      | error e2 =>
        simp only [resolveNsTarget, if_pos hm, hg]
        exact ⟨trivial, trivial, trivial, fun e he => Or.inl he⟩
    · simp only [resolveNsTarget, if_neg hm]
      cases hs : hostSetNamed st.heap.alloc.2 (NValue.obj 0) (cstr m)
          (NValue.obj st.heap.alloc.1) with
      | ok h2 =>
        simp only [hs]
        refine ⟨trivial, trivial, trivial, ?_⟩
        intro e he
        simp only [List.mem_append, List.mem_singleton] at he
        rcases he with he | he
        · exact Or.inl he
        · exact Or.inr ⟨m, he⟩
      | error e2 =>
        simp only [hs]
        refine ⟨trivial, trivial, trivial, ?_⟩
        intro e he
        simp only [List.mem_append, List.mem_singleton] at he
        rcases he with he | he
        · exact Or.inl he
        · exact Or.inr ⟨m, he⟩

theorem processClassEntry_sticky (st : InstallState) (e : ClassEntry)
    (h : st.panicked = true) : processClassEntry st e = st := by
  simp [processClassEntry, h]

theorem classPhase_sticky :
    ∀ (l : List ClassEntry) (st : InstallState), st.panicked = true →
      classPhase l st = st := by
  intro l
  induction l with
  | nil => intro st _; rfl
  | cons e rest ih =>
    intro st h
    show classPhase rest (processClassEntry st e) = st
    rw [processClassEntry_sticky st e h]
    exact ih st h

end NapiRegister

namespace NapiRegister

theorem processClassEntry_spec (st : InstallState) (e : ClassEntry)
    (h : st.panicked = false) :
    ((processClassEntry st e).panicked = true ∧
     (processClassEntry st e).table = st.table ∧
     (processClassEntry st e).refNext = st.refNext)
    ∨ ((processClassEntry st e).panicked = false ∧
       (processClassEntry st e).table
         = assocUpdate st.table e.2.2.1 0 (fun _ => st.refNext) ∧
       (processClassEntry st e).refNext = st.refNext + 1) := by
  obtain ⟨rn, jm, jsn, props⟩ := e
  obtain ⟨hp, ht, hr, _⟩ := resolveNsTarget_frame st jm
  simp only [processClassEntry, h, Bool.false_eq_true, if_false]
  split
  all_goals first
    | (left
       exact ⟨rfl, ht, hr⟩)
    | (split <;>
        · right
          refine ⟨hp.trans h, ?_, congrArg (fun x => x + 1) hr⟩
          show assocUpdate (resolveNsTarget st jm).2.table jsn 0
              (fun _ => (resolveNsTarget st jm).2.refNext)
            = assocUpdate st.table jsn 0 (fun _ => st.refNext)
          rw [ht, hr])

theorem processClassEntry_panicked_back (st : InstallState) (e : ClassEntry)
    (h : (processClassEntry st e).panicked = false) : st.panicked = false := by
  by_contra hp
  have hp2 : st.panicked = true := by
    revert hp
    cases st.panicked <;> simp
  rw [processClassEntry_sticky st e hp2] at h
  rw [h] at hp2
  exact Bool.false_ne_true hp2

theorem classPhase_panicked_back :
    ∀ (l : List ClassEntry) (st : InstallState),
      (classPhase l st).panicked = false → st.panicked = false := by
  intro l
  induction l with
  | nil => intro st h; exact h
  | cons e rest ih =>
    intro st h
    exact processClassEntry_panicked_back st e
      (ih (processClassEntry st e) h)

theorem classPhase_cons (e : ClassEntry) (rest : List ClassEntry)
    (st : InstallState) :
    classPhase (e :: rest) st = classPhase rest (processClassEntry st e) := rfl

theorem classPhase_append (l1 l2 : List ClassEntry) (st : InstallState) :
    classPhase (l1 ++ l2) st = classPhase l2 (classPhase l1 st) := by
  simp [classPhase]

theorem table_isSome_processClassEntry (st : InstallState) (e : ClassEntry)
    (k : NName) (h : (assocFind st.table k).isSome = true) :
    (assocFind (processClassEntry st e).table k).isSome = true := by
  by_cases hp : st.panicked = true
  · rw [processClassEntry_sticky st e hp]
    exact h
  · have h2 : st.panicked = false := by
      revert hp
      cases st.panicked <;> simp
    rcases processClassEntry_spec st e h2 with ⟨_, ht, _⟩ | ⟨_, ht, _⟩
    · rw [ht]
      exact h
    · rw [ht]
      by_cases hk : k = e.2.2.1
      · subst hk
        rw [assocFind_assocUpdate_same]
        rfl
      · rw [assocFind_assocUpdate_ne _ _ _ _ _ hk]
        exact h

theorem table_isSome_classPhase :
    ∀ (l : List ClassEntry) (st : InstallState) (k : NName),
      (assocFind st.table k).isSome = true →
      (assocFind (classPhase l st).table k).isSome = true := by
  intro l
  induction l with
  | nil => intro st k h; exact h
  | cons e rest ih =>
    intro st k h
    rw [classPhase_cons]
    exact ih _ k (table_isSome_processClassEntry st e k h)

theorem classPhase_table_full :
    ∀ (l : List ClassEntry) (st : InstallState),
      (classPhase l st).panicked = false →
      ∀ e ∈ l, (assocFind (classPhase l st).table e.2.2.1).isSome = true := by
  intro l
  induction l with
  | nil => intro st _ e he; simp at he
  | cons e0 rest ih =>
    intro st hfp e he
    rw [classPhase_cons] at hfp ⊢
    have hst1 : (processClassEntry st e0).panicked = false :=
      classPhase_panicked_back rest _ hfp
    have hst : st.panicked = false := processClassEntry_panicked_back st e0 hst1
    rcases List.mem_cons.mp he with he0 | her
    · subst he0
      rcases processClassEntry_spec st e hst with ⟨hpt, _, _⟩ | ⟨_, ht, _⟩
      · rw [hpt] at hst1
        simp at hst1
      · apply table_isSome_classPhase rest _ _
        rw [ht, assocFind_assocUpdate_same]
        rfl
    · exact ih _ hfp e her

theorem classPhase_refNext :
    ∀ (l : List ClassEntry) (st : InstallState),
      (classPhase l st).panicked = false →
      (classPhase l st).refNext = st.refNext + l.length := by
  intro l
  induction l with
  | nil => intro st _; rfl
  | cons e rest ih =>
    intro st hfp
    rw [classPhase_cons] at hfp ⊢
    have hst1 : (processClassEntry st e).panicked = false :=
      classPhase_panicked_back rest _ hfp
    have hst : st.panicked = false := processClassEntry_panicked_back st e hst1
    rcases processClassEntry_spec st e hst with ⟨hpt, _, _⟩ | ⟨_, _, hr⟩
    · rw [hpt] at hst1
      simp at hst1
    · rw [ih _ hfp, hr]
      simp [Nat.add_assoc, Nat.add_comm 1]

theorem classPhase_find_frozen :
    ∀ (l : List ClassEntry) (st : InstallState) (k : NName),
      (classPhase l st).panicked = false →
      (∀ e ∈ l, e.2.2.1 ≠ k) →
      assocFind (classPhase l st).table k = assocFind st.table k := by
  intro l
  induction l with
  | nil => intro st k _ _; rfl
  | cons e rest ih =>
    intro st k hfp hne
    rw [classPhase_cons] at hfp ⊢
    have hst1 : (processClassEntry st e).panicked = false :=
      classPhase_panicked_back rest _ hfp
    have hst : st.panicked = false := processClassEntry_panicked_back st e hst1
    rw [ih _ k hfp (fun e2 h2 => hne e2 (List.mem_cons_of_mem _ h2))]
    rcases processClassEntry_spec st e hst with ⟨hpt, _, _⟩ | ⟨_, ht, _⟩
    · rw [hpt] at hst1
      simp at hst1
    · rw [ht, assocFind_assocUpdate_ne _ _ _ _ _
        (fun h2 => hne e (List.mem_cons_self _ _) h2.symm)]

theorem publishAndFlag_table (st : InstallState) :
    (publishAndFlag st).table = st.table := by
  rw [publishAndFlag]
  split <;> rfl

theorem publishAndFlag_panicked (st : InstallState) :
    (publishAndFlag st).panicked = st.panicked := by
  rw [publishAndFlag]
  split <;> rfl

end NapiRegister

namespace NapiRegister

theorem processExportItem_events_plain (factories : Nat → Except Nat NValue)
    (jm : Option NName) (t : NValue) (st : InstallState) (item : Item)
    (h : ∀ ev ∈ st.events, ∀ s : MState, applyEvent s ev = s) :
    ∀ ev ∈ (processExportItem factories jm t st item).events,
      ∀ s : MState, applyEvent s ev = s := by
  cases hf : factories item.2 with
  | error e2 =>
    simp only [processExportItem, hf]
    exact h
  | ok v =>
    cases hs : hostSetNamed st.heap (exportedObject t) (cstr item.1) v with
    | ok h2 =>
      simp only [processExportItem, hf, hs]
      intro ev hev s
      simp only [List.mem_append, List.mem_singleton] at hev
      rcases hev with hev | rfl
      · exact h ev hev s
      · rfl
    | error e2 =>
      simp only [processExportItem, hf, hs]
      exact h

theorem itemsFold_events_plain (factories : Nat → Except Nat NValue)
    (jm : Option NName) (t : NValue) :
    ∀ (items : List Item) (st : InstallState),
      (∀ ev ∈ st.events, ∀ s : MState, applyEvent s ev = s) →
      ∀ ev ∈ (items.foldl (processExportItem factories jm t) st).events,
        ∀ s : MState, applyEvent s ev = s := by
  intro items
  induction items with
  | nil => intro st h; exact h
  | cons it rest ih =>
    intro st h
    exact ih _ (processExportItem_events_plain factories jm t st it h)

theorem processGroup_events_plain (factories : Nat → Except Nat NValue)
    (st : InstallState) (k : Option NName) (items : List Item)
    (h : ∀ ev ∈ st.events, ∀ s : MState, applyEvent s ev = s) :
    ∀ ev ∈ (processGroup factories st k items).events,
      ∀ s : MState, applyEvent s ev = s := by
  rw [processGroup]
  apply itemsFold_events_plain
  obtain ⟨_, _, _, hev⟩ := resolveNsTarget_frame st k
  intro ev hevm s
  rcases hev ev hevm with hin | ⟨m2, rfl⟩
  · exact h ev hin s
  · rfl

theorem exportPhase_events_plain (records : List Rec)
    (factories : Nat → Except Nat NValue) :
    ∀ (ko : List (Option NName)) (st : InstallState),
      (∀ ev ∈ st.events, ∀ s : MState, applyEvent s ev = s) →
      ∀ ev ∈ (exportPhase records ko factories st).events,
        ∀ s : MState, applyEvent s ev = s := by
  intro ko
  induction ko with
  | nil => intro st h; exact h
  | cons k rest ih =>
    intro st h
    rw [exportPhase_cons]
    exact ih _ (processGroup_events_plain factories st k _ h)

theorem processClassEntry_events_plain (st : InstallState) (e : ClassEntry)
    (h : ∀ ev ∈ st.events, ∀ s : MState, applyEvent s ev = s) :
    ∀ ev ∈ (processClassEntry st e).events, ∀ s : MState, applyEvent s ev = s := by
  by_cases hp : st.panicked = true
  · rw [processClassEntry_sticky st e hp]
    exact h
  · have h2 : st.panicked = false := by
      revert hp
      cases st.panicked <;> simp
    obtain ⟨rn, jm, jsn, props⟩ := e
    obtain ⟨_, _, _, hev⟩ := resolveNsTarget_frame st jm
    simp only [processClassEntry, h2, Bool.false_eq_true, if_false]
    split
    · intro ev hevm s
      rcases hev ev hevm with hin | ⟨m2, rfl⟩
      · exact h ev hin s
      · rfl
    · split
      · intro ev hevm s
        simp only [List.mem_append, List.mem_singleton] at hevm
        rcases hevm with hevm | rfl
        · rcases hev ev hevm with hin | ⟨m2, rfl⟩
          · exact h ev hin s
          · rfl
        · rfl
      · intro ev hevm s
        rcases hev ev hevm with hin | ⟨m2, rfl⟩
        · exact h ev hin s
        · rfl

theorem classPhase_events_plain :
    ∀ (l : List ClassEntry) (st : InstallState),
      (∀ ev ∈ st.events, ∀ s : MState, applyEvent s ev = s) →
      ∀ ev ∈ (classPhase l st).events, ∀ s : MState, applyEvent s ev = s := by
  intro l
  induction l with
  | nil => intro st h; exact h
  | cons e rest ih =>
    intro st h
    rw [classPhase_cons]
    exact ih _ (processClassEntry_events_plain st e h)

theorem scanl_plain_const :
    ∀ (l : List MEvent) (s0 : MState),
      (∀ ev ∈ l, ∀ s : MState, applyEvent s ev = s) →
      ∀ s ∈ List.scanl applyEvent s0 l, s = s0 := by
  intro l
  induction l with
  | nil =>
    intro s0 _ s hs
    simp [List.scanl] at hs
    exact hs
  | cons ev rest ih =>
    intro s0 h s hs
    rw [List.scanl] at hs
    rcases List.mem_cons.mp hs with rfl | hs2
    · rfl
    · rw [h ev (List.mem_cons_self _ _) s0] at hs2
      exact ih s0 (fun e2 h2 => h e2 (List.mem_cons_of_mem _ h2)) s hs2

theorem scanl_plain_append (t : List (NName × Nat)) :
    ∀ (l1 : List MEvent) (s0 : MState),
      (∀ ev ∈ l1, ∀ s : MState, applyEvent s ev = s) →
      s0.registered = false →
      ∀ s ∈ List.scanl applyEvent s0
          (l1 ++ [MEvent.storeSlot t, MEvent.storeRegistered]),
        s.registered = true → s.slot = some t := by
  intro l1
  induction l1 with
  | nil =>
    intro s0 _ hreg s hs hsreg
    simp only [List.nil_append, List.scanl, applyEvent, List.mem_cons,
      List.not_mem_nil, or_false] at hs
    rcases hs with rfl | rfl | rfl
    · rw [hreg] at hsreg
      exact absurd hsreg (by simp)
    · rfl
    · rfl
  | cons ev rest ih =>
    intro s0 h hreg s hs hsreg
    rw [List.cons_append, List.scanl] at hs
    rcases List.mem_cons.mp hs with rfl | hs2
    · rw [hreg] at hsreg
      exact absurd hsreg (by simp)
    · rw [h ev (List.mem_cons_self _ _) s0] at hs2
      exact ih s0 (fun e2 h2 => h e2 (List.mem_cons_of_mem _ h2)) hreg s hs2 hsreg

end NapiRegister

namespace NapiRegister

/-- C3: in every execution of the entry point — any registries, any iteration
orders, any initial exports object — the constructor table is stored into the
thread-local slot strictly before `REGISTERED` is set: every module state of
the trace that shows the flag set also shows the slot holding the final,
fully populated table (every drained class's exposed name is a key). -/
theorem c3_table_before_registered (records : List Rec)
    (factories : Nat → Except Nat NValue) (keyOrder : List (Option NName))
    (centries : List ClassEntry) (h0 : Heap) :
    ∀ s ∈ mstates ((napi_register_module_v1 records factories keyOrder
        centries h0).events),
      s.registered = true →
      s.slot = some ((napi_register_module_v1 records factories keyOrder
        centries h0).table) ∧
      ∀ e ∈ centries,
        (assocFind ((napi_register_module_v1 records factories keyOrder
          centries h0).table) e.2.2.1).isSome = true := by
  intro s hs hsreg
  have hplain : ∀ ev ∈ (classPhase centries
      (exportPhase records keyOrder factories (initState h0))).events,
      ∀ s2 : MState, applyEvent s2 ev = s2 :=
    classPhase_events_plain centries _
      (exportPhase_events_plain records factories keyOrder _
        (by intro ev hev; simp [initState] at hev))
  by_cases hp : (classPhase centries
      (exportPhase records keyOrder factories (initState h0))).panicked = true
  · have heq : napi_register_module_v1 records factories keyOrder centries h0
        = classPhase centries (exportPhase records keyOrder factories (initState h0)) := by
      rw [napi_register_module_v1, publishAndFlag, if_pos hp]
    rw [heq] at hs
    have hconst := scanl_plain_const _ _ hplain s hs
    rw [hconst] at hsreg
    simp at hsreg
  · have hp2 : (classPhase centries
        (exportPhase records keyOrder factories (initState h0))).panicked = false := by
      revert hp
      cases (classPhase centries
        (exportPhase records keyOrder factories (initState h0))).panicked <;> simp
    have hevq : (napi_register_module_v1 records factories keyOrder centries h0).events
        = (classPhase centries (exportPhase records keyOrder factories (initState h0))).events
          ++ [MEvent.storeSlot (classPhase centries
                (exportPhase records keyOrder factories (initState h0))).table,
              MEvent.storeRegistered] := by
      rw [napi_register_module_v1, publishAndFlag,
        if_neg (by rw [hp2]; exact Bool.false_ne_true)]
    have htab : (napi_register_module_v1 records factories keyOrder centries h0).table
        = (classPhase centries (exportPhase records keyOrder factories (initState h0))).table :=
      publishAndFlag_table _
    refine ⟨?_, ?_⟩
    · rw [htab]
      rw [hevq] at hs
      exact scanl_plain_append _ _ ⟨none, false⟩ hplain rfl s hs hsreg
    · intro e he
      rw [htab]
      exact classPhase_table_full centries _ hp2 e he

/-- Witness for C3 at a concrete run with one registered class. -/
theorem c3_witness :
    (⟨some [(['F', nulc], 0)], true⟩ : MState).slot
      = some ((napi_register_module_v1 [] (fun n => Except.ok (NValue.val n)) []
          [("C", none, ['F', nulc], [])] initHeap).table) ∧
    ∀ e ∈ ([("C", none, ['F', nulc], [])] : List ClassEntry),
      (assocFind ((napi_register_module_v1 [] (fun n => Except.ok (NValue.val n)) []
          [("C", none, ['F', nulc], [])] initHeap).table) e.2.2.1).isSome = true :=
  c3_table_before_registered [] (fun n => Except.ok (NValue.val n)) []
    [("C", none, ['F', nulc], [])] initHeap
    ⟨some [(['F', nulc], 0)], true⟩ (by decide) rfl

/-- C9: the constructor table is keyed by the exposed name alone: when the
drain defines two classes with the same exposed name `n` (entries `e0` and
later `e1`, regardless of their namespaces or implIds), the reference stored
while defining `e1` overwrites the one stored for `e0`, and
`get_class_constructor` afterwards returns only the later handle. -/
theorem c9_table_keyed_by_name (factories : Nat → Except Nat NValue)
    (l1 l2 l3 : List ClassEntry) (e0 e1 : ClassEntry) (n : NName)
    (hn0 : e0.2.2.1 = n) (hn1 : e1.2.2.1 = n)
    (hl3 : ∀ e ∈ l3, e.2.2.1 ≠ n)
    (hnp : (napi_register_module_v1 [] factories []
        (l1 ++ e0 :: l2 ++ e1 :: l3) initHeap).panicked = false) :
    assocFind ((classPhase (l1 ++ [e0]) (initState initHeap)).table) n
      = some l1.length ∧
    assocFind ((napi_register_module_v1 [] factories []
        (l1 ++ e0 :: l2 ++ e1 :: l3) initHeap).table) n
      = some (l1.length + 1 + l2.length) ∧
    get_class_constructor true
      (some (some ((napi_register_module_v1 [] factories []
        (l1 ++ e0 :: l2 ++ e1 :: l3) initHeap).table))) n
      = LookupOutcome.ok (some (l1.length + 1 + l2.length)) ∧
    l1.length + 1 + l2.length ≠ l1.length := by
  have hrw : napi_register_module_v1 [] factories []
      (l1 ++ e0 :: l2 ++ e1 :: l3) initHeap
      = publishAndFlag (classPhase (l1 ++ e0 :: l2 ++ e1 :: l3)
          (initState initHeap)) := rfl
  have hcp : classPhase (l1 ++ e0 :: l2 ++ e1 :: l3) (initState initHeap)
      = classPhase l3 (processClassEntry (classPhase l2 (processClassEntry
          (classPhase l1 (initState initHeap)) e0)) e1) := by
    rw [classPhase_append, classPhase_cons, classPhase_append, classPhase_cons]
  have hnp2 : (classPhase l3 (processClassEntry (classPhase l2 (processClassEntry
      (classPhase l1 (initState initHeap)) e0)) e1)).panicked = false := by
    rw [hrw, publishAndFlag_panicked, hcp] at hnp
    exact hnp
  have hD := classPhase_panicked_back l3 _ hnp2
  have hC := processClassEntry_panicked_back _ e1 hD
  have hB := classPhase_panicked_back l2 _ hC
  have hA := processClassEntry_panicked_back _ e0 hB
  have hrA : (classPhase l1 (initState initHeap)).refNext = l1.length := by
    rw [classPhase_refNext l1 _ hA]
    simp [initState]
  rcases processClassEntry_spec (classPhase l1 (initState initHeap)) e0 hA with
    ⟨hpt, _, _⟩ | ⟨_, htB, hrB⟩
  · rw [hpt] at hB
    simp at hB
  · have hfindB : assocFind (processClassEntry
        (classPhase l1 (initState initHeap)) e0).table n = some l1.length := by
      rw [htB, hn0, assocFind_assocUpdate_same, hrA]
    have hrC : (classPhase l2 (processClassEntry
        (classPhase l1 (initState initHeap)) e0)).refNext
        = l1.length + 1 + l2.length := by
      rw [classPhase_refNext l2 _ hC, hrB, hrA]
    rcases processClassEntry_spec (classPhase l2 (processClassEntry
        (classPhase l1 (initState initHeap)) e0)) e1 hC with
      ⟨hpt, _, _⟩ | ⟨_, htD, _⟩
    · rw [hpt] at hD
      simp at hD
    · have hfindD : assocFind (processClassEntry (classPhase l2 (processClassEntry
          (classPhase l1 (initState initHeap)) e0)) e1).table n
          = some (l1.length + 1 + l2.length) := by
        rw [htD, hn1, assocFind_assocUpdate_same, hrC]
      have hfindCp : assocFind ((napi_register_module_v1 [] factories []
          (l1 ++ e0 :: l2 ++ e1 :: l3) initHeap).table) n
          = some (l1.length + 1 + l2.length) := by
        rw [hrw, publishAndFlag_table, hcp,
          classPhase_find_frozen l3 _ n hnp2 hl3]
        exact hfindD
      refine ⟨?_, hfindCp, ?_, by omega⟩
      · rw [classPhase_append, classPhase_cons]
        exact hfindB
      · exact congrArg LookupOutcome.ok hfindCp

/-- Witness for C9: two classes exposed under the same name `"F"`, one
top-level and one under a namespace; the later definition (ref 1) wins. -/
theorem c9_witness :
    assocFind ((classPhase [("C", none, ['F', nulc], [])]
        (initState initHeap)).table) ['F', nulc] = some 0 ∧
    assocFind ((napi_register_module_v1 [] (fun n => Except.ok (NValue.val n)) []
        [("C", none, ['F', nulc], []), ("D", some ['m', nulc], ['F', nulc], [])]
        initHeap).table) ['F', nulc] = some 1 ∧
    get_class_constructor true
      (some (some ((napi_register_module_v1 [] (fun n => Except.ok (NValue.val n)) []
        [("C", none, ['F', nulc], []), ("D", some ['m', nulc], ['F', nulc], [])]
        initHeap).table))) ['F', nulc]
      = LookupOutcome.ok (some 1) ∧
    (1 : Nat) ≠ 0 :=
  c9_table_keyed_by_name (fun n => Except.ok (NValue.val n)) [] [] []
    ("C", none, ['F', nulc], []) ("D", some ['m', nulc], ['F', nulc], [])
    ['F', nulc] rfl rfl (by intro e he; simp at he) (by decide)

end NapiRegister
